import Mathlib

set_option maxRecDepth 100000

/-!
Verification of the crawl-cache-search engine of `openai_agents_server.py`.

The Python source is shallowly embedded as follows.

* Python strings are Lean `String`s; every Python string operation the code
  uses (`lower`, `strip`, `split`, `find`, `replace`, `startswith`,
  `endswith`, `in`) is re-implemented here over `List Char` so that every
  definition evaluates inside the kernel.
* The network (httpx) and the HTML parser (BeautifulSoup) are the external
  collaborators the spec names.  A fetch-and-extract of a documentation page
  is a function `String → Except String String` (url to extracted text or a
  raised error); a fetch of a raw GitHub file likewise; a fetch-and-parse of
  a GitHub tree page is a function `String → TreeFetch` returning the parsed
  rows and links of the page, a 404, or a raised error.  URL construction
  that is plain string concatenation in the source is kept; `urllib.parse.urljoin`
  is passed in as an opaque collaborator argument where the source calls it.
* The two module-level caches `doc_cache` and `github_cache` and a count of
  issued network requests form an explicit `ServerState` threaded through
  the functions that use them.  The source runs its per-directory searches
  as `asyncio.gather` tasks over one event loop; the embedding runs them in
  task order, which is the deterministic sequentialization of that
  cooperative schedule.
* `json.dumps` of a result dictionary is embedded as the `ToolResult.json`
  constructor applied to a `JValue` tree mirroring the dictionary; a plain
  string return is `ToolResult.text`.
-/

/-! ## Python string primitives -/

/-- Python `s.lower()` (ASCII case folding, which covers every string the
server manipulates). -/
def pyLower (s : String) : String :=
  String.mk (s.toList.map Char.toLower)

/-- Python `s.strip()`: whitespace removed from both ends. -/
def pyStrip (s : String) : String :=
  String.mk (((s.toList.dropWhile Char.isWhitespace).reverse.dropWhile Char.isWhitespace).reverse)

/-- All suffixes of a character list, longest first, ending with `[]`. -/
def charTails : List Char → List (List Char)
  | [] => [[]]
  | c :: t => (c :: t) :: charTails t

/-- Python `needle in hay`: substring containment. -/
def pyContains (needle hay : String) : Bool :=
  (charTails hay.toList).any (fun t => needle.toList.isPrefixOf t)

/-- Index of the first occurrence of `needle` in a character list. -/
def pyFindAux (needle : List Char) : List Char → Option Nat
  | [] => if needle.isEmpty then some 0 else none
  | c :: t => if needle.isPrefixOf (c :: t) then some 0 else (pyFindAux needle t).map (· + 1)

/-- Python `hay.find(needle)`, with `none` in place of `-1` (every use in the
source is guarded by a preceding `needle in hay` check). -/
def pyFind (hay needle : String) : Option Nat :=
  pyFindAux needle.toList hay.toList

/-- Python `s.startswith(p)`. -/
def pyStartsWith (s p : String) : Bool :=
  p.toList.isPrefixOf s.toList

/-- Python `s.endswith(p)`. -/
def pyEndsWith (s p : String) : Bool :=
  p.toList.isSuffixOf s.toList

/-- Helper for `pySplitWs`: `acc` holds the current word reversed. -/
def pySplitWsAux : List Char → List Char → List String
  | acc, [] => if acc.isEmpty then [] else [String.mk acc.reverse]
  | acc, c :: t =>
    if c.isWhitespace then
      (if acc.isEmpty then [] else [String.mk acc.reverse]) ++ pySplitWsAux [] t
    else
      pySplitWsAux (c :: acc) t

/-- Python `s.split()` with no argument: split on whitespace runs, dropping
empty fields. -/
def pySplitWs (s : String) : List String :=
  pySplitWsAux [] s.toList

/-- Python `s.split(sep)` for a one-character separator (the source only
splits on `'/'` and `'.'`). -/
def pySplitChar (sep : Char) : List Char → List (List Char)
  | [] => [[]]
  | c :: t =>
    let r := pySplitChar sep t
    if c == sep then [] :: r
    else
      match r with
      | [] => [[c]]
      | h :: rt => (c :: h) :: rt

/-- Helper for `pyReplace`, with fuel bounding the scan (the fuel is the
haystack length, which the scan never exceeds). -/
def pyReplaceAux (old new : List Char) : Nat → List Char → List Char
  | _, [] => []
  | 0, rest => rest
  | Nat.succ f, c :: t =>
    if old.isPrefixOf (c :: t) then new ++ pyReplaceAux old new f ((c :: t).drop old.length)
    else c :: pyReplaceAux old new f t

/-- Python `s.replace(old, new)`: every non-overlapping occurrence, left to
right.  The source never calls it with an empty `old`, for which Python
would interleave `new` everywhere; that unused case returns `s` unchanged. -/
def pyReplace (s old new : String) : String :=
  if old.toList.isEmpty then s
  else String.mk (pyReplaceAux old.toList new.toList s.toList.length s.toList)

/-! ## URL constants of the source -/

/-- Base URL of the rendered documentation site. -/
def DOCS_URL : String := "https://openai.github.io/openai-agents-python/"

/-- Base URL of the GitHub repository. -/
def GITHUB_URL : String := "https://github.com/openai/openai-agents-python"

/-- Base URL for raw file content. -/
def RAW_GITHUB_URL : String := "https://raw.githubusercontent.com/openai/openai-agents-python/main/"

/-- The href fragment GitHub puts before a file path; the source strips it
with `str.replace`. -/
def blobPfx : String := "/openai/openai-agents-python/blob/main/"

/-- The href fragment GitHub puts before a directory path. -/
def treePfx : String := "/openai/openai-agents-python/tree/main/"

/-! ## The two fetch caches (`doc_cache`, `github_cache`) -/

/-- The module-level mutable state of the server: the two caches (as
association lists, newest entry first, read through `List.lookup` exactly as
a Python dict read) and a count of network requests actually issued by each
fetch helper (the "fetch counter on a mocked fetch primitive" the spec's
cache-idempotence property observes). -/
structure ServerState where
  doc_cache : List (String × String)
  github_cache : List (String × String)
  docFetches : Nat
  githubFetches : Nat
deriving DecidableEq, Repr

/-- Lines 24-47 of the source, `fetch_doc_page`: return the cached extracted
text when `url` is a key of `doc_cache`; otherwise issue the request (the
collaborator `docNet` is the composition of `httpx` get, `raise_for_status`
and the BeautifulSoup text extraction, deterministic in the url), cache a
success under the original `url` argument, and propagate a raised error
without touching the cache. -/
def fetch_doc_page (docNet : String → Except String String) (url : String)
    (s : ServerState) : Except String String × ServerState :=
  match s.doc_cache.lookup url with
  | some cached => (.ok cached, s)
  | none =>
    match docNet url with
    | .ok content =>
      (.ok content,
        { s with doc_cache := (url, content) :: s.doc_cache, docFetches := s.docFetches + 1 })
    | .error e => (.error e, { s with docFetches := s.docFetches + 1 })

/-- Lines 50-65 of the source, `fetch_github_file`: the same get-or-fetch
shape over `github_cache`, keyed by the repository-relative `path` (the
source builds the raw URL from `path` with `urljoin`, deterministically, so
the collaborator `ghNet` is keyed by `path`). -/
def fetch_github_file (ghNet : String → Except String String) (path : String)
    (s : ServerState) : Except String String × ServerState :=
  match s.github_cache.lookup path with
  | some cached => (.ok cached, s)
  | none =>
    match ghNet path with
    | .ok content =>
      (.ok content,
        { s with github_cache := (path, content) :: s.github_cache,
                 githubFetches := s.githubFetches + 1 })
    | .error e => (.error e, { s with githubFetches := s.githubFetches + 1 })

/-! ## Snippet construction shared by the search tools -/

/-- Lines 188-191 (and verbatim again at 269-272 and 315-318) of the source:
`start = max(0, index - 100)`, `end = min(len(content), index + len(term) + 100)`,
`snippet = content[start:end]`.  Natural subtraction is Python `max(0, ...)`. -/
def mkSnippet (content : List Char) (index termLen : Nat) : List Char :=
  let start := index - 100
  let stop := min content.length (index + termLen + 100)
  (content.drop start).take (stop - start)

/-- Lines 184-198 of the source (the identical block repeats at 264-280 and
311-326): if any query term occurs in the lowercased content, take the first
term in query order that does, find its first occurrence in the lowercased
content, and cut the snippet out of the original content around it.  Returns
the matched term and the snippet; at most one per document by construction. -/
def firstTermResult (query_terms : List String) (content : String) :
    Option (String × String) :=
  if query_terms.any (fun term => pyContains term (pyLower content)) then
    match query_terms.find? (fun term => pyContains term (pyLower content)) with
    | some term =>
      let index := (pyFind (pyLower content) term).getD 0
      some (term, String.mk (mkSnippet content.toList index term.toList.length))
    | none => none
  else none

/-! ## JSON-or-text tool results -/

/-- A JSON value, mirroring the dictionaries the source feeds `json.dumps`. -/
inductive JValue where
  | s (v : String)
  | n (v : Int)
  | arr (xs : List JValue)
  | obj (fields : List (String × JValue))
  | jnull

/-- What a tool returns over the protocol layer: a plain string, or
`json.dumps` of a structured value. -/
inductive ToolResult where
  | text (s : String)
  | json (v : JValue)

/-- Field lookup in a JSON object. -/
def jGet (v : JValue) (key : String) : Option JValue :=
  match v with
  | .obj fields => fields.lookup key
  | _ => none

/-- Whether a tool result is a structured JSON payload. -/
def isJsonResult : ToolResult → Bool
  | .json _ => true
  | .text _ => false

/-- The "directories_searched" list inside a result's "debug_info", when the
result is JSON and carries one. -/
def debugDirs (t : ToolResult) : Option JValue :=
  match t with
  | .json v => (jGet v "debug_info").bind (fun d => jGet d "directories_searched")
  | .text _ => none

/-- The "error" field of a JSON result. -/
def errorField (t : ToolResult) : Option JValue :=
  match t with
  | .json v => jGet v "error"
  | .text _ => none

/-- The list of entries of a JSON-array result. -/
def resultsOf : ToolResult → Option (List JValue)
  | .json (.arr xs) => some xs
  | _ => none

/-- The "url" field of every entry of a JSON-array result. -/
def jsonUrls (t : ToolResult) : List String :=
  match t with
  | .json (.arr xs) =>
    xs.filterMap (fun x =>
      match jGet x "url" with
      | some (.s u) => some u
      | _ => none)
  | _ => []

/-! ## The parsed-document model used by `get_section` -/

/-- A node of the flat document the sibling walk of `get_section` traverses:
an element with its tag name (BeautifulSoup's `name`, an arbitrary string
such as `"h2"`, `"p"`, `"pre"` or `"hr"`) and its `get_text(strip=True)`
text, or a bare navigable string (whose `name` is `None`). -/
inductive SNode where
  | elem (tag : String) (text : String)
  | txt (s : String)
deriving DecidableEq, Repr

/-- Lines 462-465 of the source: an element node contributes its stripped
text unconditionally; a bare string contributes its `strip()` only when that
is non-empty. -/
def nodeText : SNode → Option String
  | .elem _ t => some t
  | .txt s => if pyStrip s ≠ "" then some (pyStrip s) else none

/-- Line 456 of the source: `current.name[0] == 'h' and len(current.name) == 2`
(the name is non-empty because `current.name` was truthy).  True of `h1` ...
`h6`, but also of `hr`. -/
def headingShaped (tag : String) : Bool :=
  match tag.toList with
  | [c, _] => c == 'h'
  | _ => false

/-- Line 457 of the source: `int(current.name[1])` — the parsed level when
the second character is an ASCII digit, `none` when `int` would raise
`ValueError` (as it does for `hr`). -/
def tagLevel? (tag : String) : Option Nat :=
  match tag.toList with
  | [_, c] => if c.isDigit then some (c.toNat - 48) else none
  | _ => none

/-- The second character of a heading-shaped tag (the argument `int` was
given). -/
def secondChar (tag : String) : Char :=
  (tag.toList.drop 1).headD 'x'

/-- The message of the `ValueError` that `int(name[1])` raises on a
non-digit character. -/
def intValueErrorMsg (c : Char) : String :=
  "invalid literal for int() with base 10: '" ++ String.mk [c] ++ "'"

/-- Lines 456-459 of the source: the heading test at the top of the walk
body.  A heading-shaped tag has its level parsed by `int(name[1])`, which
raises `ValueError` on a non-digit second character; on success the node is
a boundary exactly when its level is at most the matched heading's level. -/
def headingCheck (level : Nat) : SNode → Except String Bool
  | .elem tag _ =>
    if headingShaped tag then
      match tagLevel? tag with
      | none => .error (intValueErrorMsg (secondChar tag))
      | some l => .ok (decide (l ≤ level))
    else .ok false
  | .txt _ => .ok false

/-- Whether the heading test accepts the node as a boundary (when it does
not raise). -/
def isBoundaryHeading (level : Nat) (n : SNode) : Bool :=
  match headingCheck level n with
  | .ok b => b
  | .error _ => false

/-- Whether the heading test raises `ValueError` on this node: an element
whose tag is heading-shaped but has no digit second character, such as
`hr`. -/
def raisesHeadingCheck : SNode → Bool
  | .elem tag _ => headingShaped tag && (tagLevel? tag).isNone
  | .txt _ => false

/-- Lines 448-467 of the source: the `while current and not next_heading`
sibling walk, over siblings paired with their document position (the
`sourceline` ordinal of the external parser).  Returns the accumulated
`content` list and the boundary heading (`next_heading`) if one was hit, or
the `ValueError` raised by `int(name[1])` on the first heading-shaped
non-heading tag reached — that exception aborts the walk (and, through the
handler at line 521, the whole `get_section` call). -/
def boundaryWalk (level : Nat) :
    List (Nat × SNode) → Except String (List String × Option (Nat × SNode))
  | [] => .ok ([], none)
  | p :: rest =>
    match headingCheck level p.2 with
    | .error e => .error e
    | .ok true => .ok ([], some p)
    | .ok false =>
      match boundaryWalk level rest with
      | .error e => .error e
      | .ok r =>
        .ok (match nodeText p.2 with
             | some t => t :: r.1
             | none => r.1, r.2)

/-- The tag name `find_all` is given for one heading level: `"h1"` ...
`"h6"`. -/
def headingTagName (lvl : Nat) : String :=
  String.mk ['h', Char.ofNat (48 + lvl)]

/-- The result of `soup.find_all('h{lvl}')` over the flat document: the
elements with that exact tag name, in document order, each as (position,
level, text). -/
def headingsOfLevel (doc : List SNode) (lvl : Nat) : List (Nat × Nat × String) :=
  doc.enum.filterMap (fun p =>
    match p.2 with
    | .elem tag t => if tag == headingTagName lvl then some (p.1, lvl, t) else none
    | .txt _ => none)

/-- Line 407 of the source: `section_lower == heading_text or section_lower
in heading_text`, on the lowercased heading text. -/
def headingMatchB (section_lower heading_text : String) : Bool :=
  section_lower == pyLower heading_text || pyContains section_lower (pyLower heading_text)

/-- Lines 403-411 of the source: the outer `for tag in heading_tags` loop of
the phase-1 match; the inner loop with its `break` is the first match within
one tag's `find_all` list. -/
def phase1Scan (doc : List SNode) (section_lower : String) :
    List Nat → Option (Nat × Nat × String)
  | [] => none
  | lvl :: rest =>
    match (headingsOfLevel doc lvl).find? (fun h => headingMatchB section_lower h.2.2) with
    | some h => some h
    | none => phase1Scan doc section_lower rest

/-- Line 398 of the source: `heading_tags = ['h1', ..., 'h6']`, by level. -/
def headingTagLevels : List Nat := [1, 2, 3, 4, 5, 6]

/-- The phase-1 heading match of `get_section` (lines 398-411): scan the
`h1` list, then the `h2` list, and so on, accepting the first heading whose
lowercased text equals or contains the lowercased section name. -/
def phase1 (doc : List SNode) (section_lower : String) : Option (Nat × Nat × String) :=
  phase1Scan doc section_lower headingTagLevels

/-- All `h1` ... `h6` headings of the document in document order. -/
def allHeadings (doc : List SNode) : List (Nat × Nat × String) :=
  doc.enum.filterMap (fun p =>
    match p.2 with
    | .elem tag t =>
      (headingTagLevels.find? (fun lvl => tag == headingTagName lvl)).map
        (fun lvl => (p.1, lvl, t))
    | .txt _ => none)

/-- Modelled from the spec's words, for comparison with `phase1`: "scan all
headings in document order; accept the first heading whose normalized text
equals or contains the normalized section name". -/
def phase1DocOrderSpec (doc : List SNode) (section_lower : String) :
    Option (Nat × Nat × String) :=
  (allHeadings doc).find? (fun h => headingMatchB section_lower h.2.2)

/-- The scan order `phase1` actually uses, written out flat: headings grouped
by level `h1` to `h6`, document order within each level. -/
def phase1GroupedOrder (doc : List SNode) : List (Nat × Nat × String) :=
  headingTagLevels.flatMap (headingsOfLevel doc)

/-- Lines 448-467 of the source applied to the document: the sibling walk
starts at the node after the matched heading (position `hIdx`, level
`level`); a raised `ValueError` propagates. -/
def extractSection (doc : List SNode) (hIdx level : Nat) :
    Except String (List String × Option (Nat × SNode)) :=
  boundaryWalk level (doc.enum.drop (hIdx + 1))

/-- Lines 504-512 of the source: every `pre` block of the whole page whose
sourceline is after the matched heading and, when the walk found a
`next_heading`, before that boundary; when the walk hit the end of the
siblings instead (`next_heading` is `None`), the `if next_heading and ...`
guard collects nothing. -/
def sectionCodeExamples (doc : List SNode) (hIdx : Nat)
    (nextHeading : Option (Nat × SNode)) : List String :=
  doc.enum.filterMap (fun p =>
    match p.2 with
    | .elem tag t =>
      if tag == "pre" then
        if hIdx < p.1 then
          match nextHeading with
          | some nh => if p.1 < nh.1 then some t else none
          | none => none
        else none
      else none
    | .txt _ => none)

/-- The outcome of the extraction part of `get_section`. -/
inductive SectionOutcome where
  | errorText (msg : String)
  | emptyContent (heading : String)
  | ok (heading : String) (content : List String) (code_examples : List String)
deriving DecidableEq, Repr

/-- Lines 448-522 of the source after a heading was matched: run the sibling
walk; a `ValueError` raised inside it reaches the handler at line 521 and
the call returns the error string.  The parent-`div` fallback (lines
470-492) looks for an enclosing container, which the flat document model
does not have, so `find_parent` returns `None` and the fallback adds
nothing; report the found-but-empty outcome when `content` stayed empty,
else the content (joined with newlines by the source; kept as the list of
appended pieces here) together with the collected code examples. -/
def get_section_extract (doc : List SNode) (hIdx level : Nat)
    (headingText : String) : SectionOutcome :=
  match extractSection doc hIdx level with
  | .error e => .errorText ("Error retrieving section: " ++ e)
  | .ok r =>
    if r.1.isEmpty then .emptyContent headingText
    else .ok headingText r.1 (sectionCodeExamples doc hIdx r.2)

/-! ## URL normalization of `get_section` and `get_doc` -/

/-- Lines 383-385 of the source (`get_section`): the page argument is taken
as-is when it starts with `http`, else joined onto `DOCS_URL` by the
`urljoin` collaborator; then `.html` is appended unless the result already
ends with it.  The guard at line 380 rejects an empty page first. -/
def get_section_url (urljoin : String → String → String) (page : String) : String :=
  let full_url := if pyStartsWith page "http" then page else urljoin DOCS_URL page
  if !pyEndsWith full_url ".html" then full_url ++ ".html" else full_url

/-- Lines 1227-1229 of the source (`get_doc`): the same normalization. -/
def get_doc_url (urljoin : String → String → String) (path : String) : String :=
  let url := if pyStartsWith path "http" then path else urljoin DOCS_URL path
  if !pyEndsWith url ".html" then url ++ ".html" else url

/-! ## The parsed GitHub tree page -/

/-- An anchor of a GitHub listing page as the source reads it: its `href`,
its `get_text(strip=True)`, and whether it carries the `data-pjax`
attribute that the `a[data-pjax]` selector matches. -/
structure GhLink where
  href : String
  text : String
  dataPjax : Bool
deriving DecidableEq, Repr

/-- One `div.Box-row` item of a GitHub listing page: whether it holds an
`svg`, that svg's `aria-label` attribute (absent when the svg has none),
and the anchors inside the row in document order. -/
structure GhRow where
  hasSvg : Bool
  ariaLabel : Option String
  links : List GhLink
deriving DecidableEq, Repr

/-- A parsed GitHub tree page: the `div.Box-row` items (the source's first
selector; its `div[role='row']` and `tr.js-navigation-item` fallbacks parse
to the same row model), and the anchors of the `repository-content` area
used when no rows were found. -/
structure GhTreePage where
  rows : List GhRow
  contentLinks : List GhLink
deriving DecidableEq, Repr

/-- The outcome of fetching and parsing one GitHub tree URL: a 404 status, a
parsed page, or a raised error (network failure or non-2xx status). -/
inductive TreeFetch where
  | notFound
  | ok (page : GhTreePage)
  | failed (err : String)
deriving DecidableEq, Repr

/-- `item.select_one("a[data-pjax]")`. -/
def selectPjax (r : GhRow) : Option GhLink :=
  r.links.find? (·.dataPjax)

/-- `item.select_one("a[href*='...']")` for a given href fragment. -/
def selectHref (sub : String) (r : GhRow) : Option GhLink :=
  r.links.find? (fun l => pyContains sub l.href)

/-- `item.select_one("a")`. -/
def selectAny (r : GhRow) : Option GhLink :=
  r.links.head?

/-- Lines 112-116 (and 1396-1400) of the source: the chain
`a[data-pjax]` or `a[href*='/blob/main/']` or `a[href*='/tree/main/']`,
then any `a` at all. -/
def rowPrimaryLink (r : GhRow) : Option GhLink :=
  match selectPjax r with
  | some l => some l
  | none =>
    match selectHref "/blob/main/" r with
    | some l => some l
    | none =>
      match selectHref "/tree/main/" r with
      | some l => some l
      | none => selectAny r

/-- Truthiness of `svg and svg.get("aria-label")`: the row has an svg and
that svg has a non-empty `aria-label`. -/
def svgAria (r : GhRow) : Option String :=
  if r.hasSvg then
    match r.ariaLabel with
    | some lbl => if lbl = "" then none else some lbl
    | none => none
  else none

/-- A name-and-path entry of the structure dictionary. -/
structure NamePath where
  name : String
  path : String
deriving DecidableEq, Repr

/-- What `get_github_structure` returns: the `files` and `directories`
lists, plus the `error` key when the whole fetch raised. -/
structure GhStructure where
  errorMsg : Option String
  files : List NamePath
  directories : List NamePath
deriving DecidableEq, Repr

/-- Lines 108-140 of the source: one `div.Box-row` item of the repository
root page, classified as directory or file.  `none` when the row has no
anchor at all or its href yields an empty path. -/
def ghsProcessItem (item : GhRow) : Option (Bool × NamePath) :=
  match rowPrimaryLink item with
  | none => none
  | some link =>
    let href := link.href
    let name := link.text
    let is_dir :=
      match svgAria item with
      | some lbl => pyContains "directory" (pyLower lbl) || pyContains "dir" (pyLower lbl)
      | none => if href ≠ "" then pyContains "/tree/main/" href else false
    let path :=
      if pyContains "/blob/main/" href then pyReplace href blobPfx ""
      else if pyContains "/tree/main/" href then pyReplace href treePfx ""
      else ""
    if path ≠ "" then some (is_dir, ⟨name, path⟩) else none

/-- Lines 94-105 of the source: the alternative link scan used when no rows
were found on the repository root page. -/
def ghsAltItem (link : GhLink) : Option (Bool × NamePath) :=
  if pyContains "/blob/main/" link.href || pyContains "/tree/main/" link.href then
    let is_dir := pyContains "/tree/main/" link.href
    let name := link.text
    let path := pyReplace (pyReplace link.href treePfx "") blobPfx ""
    if is_dir && path ≠ "" && name ≠ "" then some (true, ⟨name, path⟩)
    else if path ≠ "" && name ≠ "" then some (false, ⟨name, path⟩)
    else none
  else none

/-- Line 146 of the source: the default directories synthesized when the
root listing yields nothing. -/
def ghsDefaultDirs : List String := ["examples", "src", "docs", "tests"]

/-- Lines 68-155 of the source, `get_github_structure`: fetch and parse the
repository root listing; classify each row (or, when no rows were found,
each content-area link); when both lists are still empty, synthesize the
default directories; a raised fetch error becomes the `error` entry. -/
def get_github_structure (treeNet : String → TreeFetch) : GhStructure :=
  match treeNet (GITHUB_URL ++ "/tree/main") with
  | .notFound => ⟨some "HTTP status 404", [], []⟩
  | .failed e => ⟨some e, [], []⟩
  | .ok page =>
    let items :=
      if page.rows.isEmpty then page.contentLinks.filterMap ghsAltItem
      else page.rows.filterMap ghsProcessItem
    let files := (items.filter (fun it => !it.1)).map (·.2)
    let dirs := (items.filter (fun it => it.1)).map (·.2)
    if files.isEmpty && dirs.isEmpty then
      ⟨none, [], ghsDefaultDirs.map (fun d => ⟨d, d⟩)⟩
    else ⟨none, files, dirs⟩

/-! ## `search_docs` (lines 158-231 of the source) -/

/-- Line 180 of the source: keep only hrefs that are not absolute, fragment
or javascript links. -/
def linkAllowed (href : String) : Bool :=
  !(pyStartsWith href "http://" || pyStartsWith href "https://" ||
    pyStartsWith href "#" || pyStartsWith href "javascript:")

/-- One documentation search result dictionary (lines 193-197 / 216-220). -/
def docResultEntry (url title snip : String) : JValue :=
  .obj [("url", .s url), ("title", .s title), ("snippet", .s ("..." ++ snip ++ "..."))]

/-- Lines 201-223 of the source: the body of the `for link in links[:20]`
loop.  A fetch that raises is skipped (`except: continue`); a fetched page
contributes at most one result, built by `firstTermResult`. -/
def sdLinkStep (docNet : String → Except String String)
    (urljoin : String → String → String) (query_terms : List String)
    (acc : List JValue × ServerState) (link : String) : List JValue × ServerState :=
  let page_url := urljoin DOCS_URL link
  match fetch_doc_page docNet page_url acc.2 with
  | (.error _, st) => (acc.1, st)
  | (.ok page_content, st) =>
    match firstTermResult query_terms page_content with
    | some r => (acc.1 ++ [docResultEntry page_url link r.2], st)
    | none => (acc.1, st)

/-- Lines 158-231 of the source, `search_docs`: clean the query and reject
an empty one; fetch the main page (a raised fetch becomes the top-level
error string); extract candidate links from its content with the parser
collaborator `parseAnchors` and the source's own filter; search the main
page, then up to 20 linked pages; return the plain no-results string when
nothing matched, else the JSON list of results. -/
def search_docs (docNet : String → Except String String)
    (urljoin : String → String → String) (parseAnchors : String → List String)
    (query : String) (s : ServerState) : ToolResult × ServerState :=
  let q := pyLower (pyStrip query)
  if q = "" then (.text "Please provide a search query.", s)
  else
    let query_terms := pySplitWs q
    match fetch_doc_page docNet DOCS_URL s with
    | (.error e, s1) => (.text ("Error searching documentation: " ++ e), s1)
    | (.ok content, s1) =>
      let links := (parseAnchors content).filter linkAllowed
      let mainResults : List JValue :=
        match firstTermResult query_terms content with
        | some r => [docResultEntry DOCS_URL "Main Page" r.2]
        | none => []
      let r := (links.take 20).foldl (sdLinkStep docNet urljoin query_terms) (mainResults, s1)
      if r.1.isEmpty then
        (.text ("No results found for your query: '" ++ q ++
          "'. Try a different search term or check the documentation index."), r.2)
      else (.json (.arr r.1), r.2)

/-! ## `search_github` (lines 234-373 of the source) -/

/-- The file URL built at lines 276 / 322 of the source. -/
def ghFileUrl (path : String) : String :=
  GITHUB_URL ++ "/blob/main/" ++ path

/-- One repository search result dictionary (lines 274-279 / 320-325). -/
def ghResultEntry (path term snip : String) : JValue :=
  .obj [("path", .s path), ("url", .s (ghFileUrl path)),
        ("snippet", .s ("..." ++ snip ++ "...")), ("matched_term", .s term)]

/-- Lines 256-282 of the source: the body of the loop over the root files of
the repository structure.  An empty path is skipped; a raised fetch is
recorded as a search error; a fetched file contributes at most one result. -/
def ghRootStep (ghNet : String → Except String String) (query_terms : List String)
    (acc : List JValue × List String × ServerState) (file : NamePath) :
    List JValue × List String × ServerState :=
  if file.path = "" then acc
  else
    match fetch_github_file ghNet file.path acc.2.2 with
    | (.error e, st) =>
      (acc.1, acc.2.1 ++ ["Error checking root file " ++ file.name ++ ": " ++ e], st)
    | (.ok content, st) =>
      match firstTermResult query_terms content with
      | some r => (acc.1 ++ [ghResultEntry file.path r.1 r.2], acc.2.1, st)
      | none => (acc.1, acc.2.1, st)

/-- Lines 300-328 of the source: the body of the loop over the rows of one
directory listing inside `search_directory`.  Only the `a[data-pjax]` anchor
is consulted; its href is stripped of the blob prefix; only `.py` and `.md`
paths are fetched and searched. -/
def ghDirRowStep (ghNet : String → Except String String) (query_terms : List String)
    (acc : List JValue × List String × ServerState) (item : GhRow) :
    List JValue × List String × ServerState :=
  match selectPjax item with
  | none => acc
  | some link =>
    let file_path := pyReplace link.href blobPfx ""
    if pyEndsWith file_path ".py" || pyEndsWith file_path ".md" then
      match fetch_github_file ghNet file_path acc.2.2 with
      | (.error e, st) =>
        (acc.1, acc.2.1 ++ ["Error processing file " ++ file_path ++ ": " ++ e], st)
      | (.ok content, st) =>
        match firstTermResult query_terms content with
        | some r => (acc.1 ++ [ghResultEntry file_path r.1 r.2], acc.2.1, st)
        | none => (acc.1, acc.2.1, st)
    else acc

/-- Lines 285-332 of the source, `search_directory` of `search_github`: list
one directory (uncached fetch of its tree page); a 404 or a raised error
yields no results and one error note; otherwise each row is processed in
order.  Returns the directory's results, its error notes, and the state
after its file fetches. -/
def gh_search_directory (treeNet : String → TreeFetch)
    (ghNet : String → Except String String) (query_terms : List String)
    (dir_path : String) (st : ServerState) : List JValue × List String × ServerState :=
  match treeNet (GITHUB_URL ++ "/tree/main/" ++ dir_path) with
  | .notFound => ([], ["Directory not found: " ++ dir_path], st)
  | .failed e => ([], ["Error searching directory " ++ dir_path ++ ": " ++ e], st)
  | .ok page => page.rows.foldl (ghDirRowStep ghNet query_terms) ([], [], st)

/-- Line 335 of the source: the key directories `search_github` fans out to. -/
def ghKeyDirs : List String := ["openai", "examples", "docs", "src", "src/agents", "tests"]

/-- The `debug_info` dictionary of lines 352-357. -/
def ghDebugInfo (q : String) (query_terms : List String) (search_errors : List String) : JValue :=
  .obj [("search_query", .s q),
        ("search_terms", .arr (query_terms.map .s)),
        ("directories_searched", .arr (ghKeyDirs.map .s)),
        ("errors", if search_errors.isEmpty then .jnull else .arr (search_errors.map .s))]

/-- One directory of the `asyncio.gather` fan-out of lines 336-349: its
results and error notes are appended to the accumulated ones, in task
order. -/
def ghDirFanStep (treeNet : String → TreeFetch) (ghNet : String → Except String String)
    (query_terms : List String) (acc : List JValue × List String × ServerState)
    (d : String) : List JValue × List String × ServerState :=
  let r := gh_search_directory treeNet ghNet query_terms d acc.2.2
  (acc.1 ++ r.1, acc.2.1 ++ r.2.1, r.2.2)

/-- Lines 234-373 of the source, `search_github`: clean the query and reject
an empty one; get the repository structure (an `error` entry empties it and
is recorded); search the root files; fan out over the key directories (the
`asyncio.gather` of line 342, run in task order); return the JSON error
payload carrying `debug_info` when nothing matched, else the JSON results
payload. -/
def search_github (treeNet : String → TreeFetch)
    (ghNet : String → Except String String) (query : String) (s : ServerState) :
    ToolResult × ServerState :=
  let q := pyLower (pyStrip query)
  if q = "" then (.text "Please provide a search query.", s)
  else
    let query_terms := pySplitWs q
    let structure0 := get_github_structure treeNet
    let searchErrors0 : List String :=
      match structure0.errorMsg with
      | some e => ["Error getting repository structure: " ++ e]
      | none => []
    let rootFiles : List NamePath :=
      match structure0.errorMsg with
      | some _ => []
      | none => structure0.files
    let afterRoot := rootFiles.foldl (ghRootStep ghNet query_terms) ([], searchErrors0, s)
    let afterDirs := ghKeyDirs.foldl (ghDirFanStep treeNet ghNet query_terms) afterRoot
    let results := afterDirs.1
    let search_errors := afterDirs.2.1
    let debug_info := ghDebugInfo q query_terms search_errors
    if results.isEmpty then
      (.json (.obj [("error", .s ("No results found in the GitHub repository for query: '" ++
          q ++ "'. Try different search terms.")), ("debug_info", debug_info)]), afterDirs.2.2)
    else
      (.json (.obj [("results", .arr results), ("debug_info", debug_info)]), afterDirs.2.2)

/-! ## `search_files` (lines 525-680 of the source) -/

/-- One filename match dictionary (lines 560-564 / 606-610). -/
def sfMatchEntry (name path : String) : JValue :=
  .obj [("name", .s name), ("path", .s path), ("url", .s (ghFileUrl path))]

/-- Lines 587-612 of the source: the body of the loop over the rows of one
directory listing inside `search_directory` of `search_files`.  The
accumulator is (matches, errors, subdirectories found).  A row without an
`a[data-pjax]` anchor is skipped; a row whose svg is absent makes
`svg.get("aria-label")` raise an `AttributeError`, recorded per item; a
directory row queues its path; a file row whose lowercased name contains the
pattern is a match. -/
def sfRowStep (pattern dir_path : String)
    (acc : List JValue × List String × List String) (item : GhRow) :
    List JValue × List String × List String :=
  match selectPjax item with
  | none => acc
  | some link =>
    let name := link.text
    if !item.hasSvg then
      (acc.1, acc.2.1 ++ ["Error processing item in " ++ dir_path ++ ": AttributeError"],
       acc.2.2)
    else
      let is_dir :=
        match item.ariaLabel with
        | some lbl => if lbl ≠ "" then pyContains "dir" (pyLower lbl) else false
        | none => false
      if is_dir then (acc.1, acc.2.1, acc.2.2 ++ [dir_path ++ "/" ++ name])
      else if pyContains pattern (pyLower name) then
        (acc.1 ++ [sfMatchEntry name (dir_path ++ "/" ++ name)], acc.2.1, acc.2.2)
      else acc

/-- Lines 614-617 of the source: recurse into a queued subdirectory only
when its slash-separated component count is at most 3, appending its matches
and errors; `f` is the recursion at the remaining fuel. -/
def sfSubdirStep (f : String → List JValue × List String)
    (acc : List JValue × List String) (subdir : String) : List JValue × List String :=
  if (pySplitChar '/' subdir.toList).length ≤ 3 then
    let r := f subdir
    (acc.1 ++ r.1, acc.2 ++ r.2)
  else acc

/-- Lines 569-619 of the source, the recursive `search_directory` of
`search_files`.  The recursion of the source is bounded by the guard
`len(subdir.split('/')) <= 3`; since every queued subdirectory has strictly
more slash-separated components than its parent, the nesting from the
one- and two-component roots the source starts at is at most three calls
deep, so the explicit `fuel` of 4 that `search_files` passes is never the
binding bound.  Returns (matches, errors). -/
def sf_search_directory (treeNet : String → TreeFetch) (pattern : String) :
    Nat → String → List JValue × List String
  | 0, _ => ([], [])
  | Nat.succ fuel, dir_path =>
    match treeNet (GITHUB_URL ++ "/tree/main/" ++ dir_path) with
    | .notFound => ([], ["Directory not found: " ++ dir_path])
    | .failed e => ([], ["Error searching directory " ++ dir_path ++ ": " ++ e])
    | .ok page =>
      let folded := page.rows.foldl (sfRowStep pattern dir_path) ([], [], [])
      folded.2.2.foldl (sfSubdirStep (sf_search_directory treeNet pattern fuel))
        (folded.1, folded.2.1)

/-- Line 622 of the source: the key directories of `search_files`. -/
def sfKeyDirs : List String := ["examples", "src", "docs", "test", "tests"]

/-- Lines 639-645 of the source: the direct fallback paths tried when no
match was found. -/
def sfDirectPaths : List String := ["examples", "src/agents", "docs", "test", "tests"]

/-- The `debug_info` dictionary of lines 654-658. -/
def sfDebugInfo (pattern : String) (search_errors : List String) : JValue :=
  .obj [("search_pattern", .s pattern),
        ("directories_searched", .arr (sfKeyDirs.map .s)),
        ("errors", if search_errors.isEmpty then .jnull else .arr (search_errors.map .s))]

/-- Lines 554-566 of the source: one root file of the repository structure,
matched by lowercased name (the match entry records the lowercased name). -/
def sfRootStep (pattern : String) (acc : List JValue) (file : NamePath) : List JValue :=
  let name := pyLower file.name
  if pyContains pattern name then acc ++ [sfMatchEntry name file.path] else acc

/-- One directory of the fan-outs of lines 624-635 and 647-651: its matches
and errors are appended in task order. -/
def sfDirFanStep (treeNet : String → TreeFetch) (pattern : String)
    (acc : List JValue × List String) (d : String) : List JValue × List String :=
  let r := sf_search_directory treeNet pattern 4 d
  (acc.1 ++ r.1, acc.2 ++ r.2)

/-- Lines 525-680 of the source, `search_files`: clean the pattern and
reject an empty one; get the repository structure (an error empties it and
is recorded); match the root files by lowercased name; fan out
`search_directory` over the key directories (the source queues each one
whether or not the structure lists it, lines 626-631); when nothing matched,
retry the direct fallback paths; return the JSON payload (an error payload
with `debug_info` when there are still no matches, with one of two messages
depending on whether errors were recorded). -/
def search_files (treeNet : String → TreeFetch) (filename_pattern : String) : ToolResult :=
  let pattern := pyLower (pyStrip filename_pattern)
  if pattern = "" then .text "Please provide a filename pattern to search for."
  else
    let structure0 := get_github_structure treeNet
    let errs0 : List String :=
      match structure0.errorMsg with
      | some e => ["Error getting repository structure: " ++ e]
      | none => []
    let rootFiles : List NamePath :=
      match structure0.errorMsg with
      | some _ => []
      | none => structure0.files
    let rootMatches := rootFiles.foldl (sfRootStep pattern) []
    let afterKey := sfKeyDirs.foldl (sfDirFanStep treeNet pattern) (rootMatches, errs0)
    let afterDirect :=
      if afterKey.1.isEmpty then
        sfDirectPaths.foldl (sfDirFanStep treeNet pattern) afterKey
      else afterKey
    let matchList := afterDirect.1
    let search_errors := afterDirect.2
    let debug_info := sfDebugInfo pattern search_errors
    if matchList.isEmpty then
      if !search_errors.isEmpty then
        .json (.obj [("error", .s ("No files found matching '" ++ pattern ++
          "'. There were errors during search that might have affected results.")),
          ("debug_info", debug_info)])
      else
        .json (.obj [("error", .s ("No files found matching '" ++ pattern ++
          "'. Try a different search pattern.")), ("debug_info", debug_info)])
    else .json (.obj [("matches", .arr matchList), ("debug_info", debug_info)])

/-! ## `process_directory` of `list_github_structure` (lines 1333-1481) -/

/-- One file entry of a directory structure (lines 1384-1389 / 1435-1440);
the default entries synthesized at lines 1447-1450 carry no `url` key,
modelled by `none`. -/
structure PDFile where
  name : String
  path : String
  extension : String
  url : Option String
deriving DecidableEq, Repr

/-- What one `process_directory` call returns: the depth note of line 1336,
the error dictionary of lines 1342 / 1481, or the structure dictionary with
its files and its directories (name, path, and the `contents` key attached
at line 1473 once a subdirectory was processed). -/
inductive PDResult where
  | note (s : String)
  | failed (e : String)
  | strct (files : List PDFile) (dirs : List (String × String × Option PDResult)) (path : String)

/-- Lines 1383 / 1434 of the source: `name.split('.')[-1] if '.' in name
else ""`. -/
def pdExtension (name : String) : String :=
  if pyContains "." name then String.mk ((pySplitChar '.' name.toList).getLastD [])
  else ""

/-- Line 1469 of the source: `subdirs[i].split('/')[-1]`. -/
def lastComponent (p : String) : String :=
  String.mk ((pySplitChar '/' p.toList).getLastD [])

/-- Lines 1392-1440 of the source: one row of a directory listing, resolved
to a direct-child file (`Sum.inl`) or directory (`Sum.inr (name, path)`),
or nothing when the row has no anchor, the path does not start with the
current directory, or it is not a direct child. -/
def pdRowItem (dir_path : String) (item : GhRow) : Option (PDFile ⊕ (String × String)) :=
  match rowPrimaryLink item with
  | none => none
  | some link =>
    let href := link.href
    let name := link.text
    let is_dir :=
      match svgAria item with
      | some lbl => pyContains "directory" (pyLower lbl) || pyContains "dir" (pyLower lbl)
      | none => if href ≠ "" then pyContains "/tree/main/" href else false
    let item_path := if is_dir then pyReplace href treePfx "" else pyReplace href blobPfx ""
    if pyStartsWith item_path (dir_path ++ "/") then
      let rel_path := pyReplace item_path (dir_path ++ "/") ""
      if !pyContains "/" rel_path then
        if is_dir then some (.inr (name, item_path))
        else some (.inl ⟨name, item_path, pdExtension name, some (ghFileUrl item_path)⟩)
      else none
    else none

/-- Lines 1361-1389 of the source: the alternative link scan of
`process_directory`, used when the listing produced no rows.  The entries it
builds use the path tail as the display name. -/
def pdAltItem (dir_path : String) (link : GhLink) : Option (PDFile ⊕ (String × String)) :=
  let href := link.href
  if pyContains "/blob/main/" href || pyContains "/tree/main/" href then
    if pyContains ("/tree/main/" ++ dir_path ++ "/") href ||
       pyContains ("/blob/main/" ++ dir_path ++ "/") href then
      let is_dir := pyContains "/tree/main/" href
      if is_dir then
        let path := pyReplace href (treePfx ++ dir_path ++ "/") ""
        if path ≠ "" && !pyContains "/" path then
          some (.inr (path, dir_path ++ "/" ++ path))
        else none
      else
        let path := pyReplace href (blobPfx ++ dir_path ++ "/") ""
        if path ≠ "" && !pyContains "/" path then
          some (.inl ⟨path, dir_path ++ "/" ++ path, pdExtension path,
            some (ghFileUrl (dir_path ++ "/" ++ path))⟩)
        else none
    else none
  else none

/-- Lines 1471-1474 of the source: attach a processed subdirectory's result
as the `contents` of the first directory entry whose name or path matches. -/
def pdSetFirst : List (String × String × Option PDResult) → String → String → PDResult →
    List (String × String × Option PDResult)
  | [], _, _, _ => []
  | e :: rest, subdirName, subdirPath, res =>
    if e.1 == subdirName || e.2.1 == subdirPath then (e.1, e.2.1, some res) :: rest
    else e :: pdSetFirst rest subdirName subdirPath res

/-- Lines 1444-1455 of the source: the default entries synthesized for the
well-known `examples` and `src` directories when a listing yields nothing. -/
def pdDefaults (dir_path : String) (files : List PDFile) (dirs : List (String × String)) :
    List PDFile × List (String × String) :=
  if files.isEmpty && dirs.isEmpty then
    if dir_path = "examples" then
      ([⟨"basic_agent.py", "examples/basic_agent.py", "py", none⟩,
        ⟨"handoffs.py", "examples/handoffs.py", "py", none⟩], dirs)
    else if dir_path = "src" then (files, [("agents", "src/agents")])
    else (files, dirs)
  else (files, dirs)

/-- Lines 1333-1481 of the source, `process_directory` (with the depth
argument first, so that the recursion is structural on it): return the depth
note when called with `max_depth <= 0`; fetch and parse the directory
listing (404 and raised errors become error dictionaries); classify the rows
(or, with no rows, the content-area links) into direct-child files and
directories; synthesize defaults for well-known empty directories; and, only
when `max_depth > 1`, process every queued subdirectory with `max_depth - 1`
(the `asyncio.gather` of line 1464, run in task order) and attach each
result to its directory entry. -/
def process_directory (treeNet : String → TreeFetch) : Nat → String → PDResult
  | 0, _ => .note "Max depth reached"
  | Nat.succ d, dir_path =>
    match treeNet (GITHUB_URL ++ "/tree/main/" ++ dir_path) with
    | .notFound => .failed ("Directory not found: " ++ dir_path)
    | .failed e => .failed ("Error processing directory " ++ dir_path ++ ": " ++ e)
    | .ok page =>
      let items :=
        if page.rows.isEmpty then page.contentLinks.filterMap (pdAltItem dir_path)
        else page.rows.filterMap (pdRowItem dir_path)
      let files0 := items.filterMap (fun it =>
        match it with
        | .inl f => some f
        | .inr _ => none)
      let dirs0 := items.filterMap (fun it =>
        match it with
        | .inl _ => none
        | .inr dp => some dp)
      let subdirs := dirs0.map (·.2)
      let defaulted := pdDefaults dir_path files0 dirs0
      let dirEntries := defaulted.2.map (fun dp => (dp.1, dp.2, (none : Option PDResult)))
      if 0 < d && !subdirs.isEmpty then
        let results := subdirs.map (fun sd => process_directory treeNet d sd)
        let attached := (subdirs.zip results).foldl
          (fun des pr => pdSetFirst des (lastComponent pr.1) pr.1 pr.2) dirEntries
        .strct defaulted.1 attached dir_path
      else .strct defaulted.1 dirEntries dir_path

/-- The directory entries of a `process_directory` structure result. -/
def pdDirs : PDResult → List (String × String × Option PDResult)
  | .strct _ ds _ => ds
  | _ => []

/-- The file entries of a `process_directory` structure result. -/
def pdFiles : PDResult → List PDFile
  | .strct fs _ _ => fs
  | _ => []

/-! ## Theorems -/

/-- C1 (amended).  The snippet the search tools cut around a match of length
`termLen` at offset `index` has length at most `termLen + 200`, not 200: it
is 100 characters before the term, the term itself, and 100 characters
after, clipped to the document bounds.  In the interior the length is
exactly `termLen + 200`; near the start the snippet begins at offset 0; near
the end it runs to the end of the document. -/
theorem snippet_clipped_bound (content : List Char) (index termLen : Nat) :
    (mkSnippet content index termLen).length ≤ termLen + 200
    ∧ (100 ≤ index → index + termLen + 100 ≤ content.length →
        (mkSnippet content index termLen).length = termLen + 200)
    ∧ (index < 100 →
        mkSnippet content index termLen =
          content.take (min content.length (index + termLen + 100)))
    ∧ (content.length ≤ index + termLen + 100 →
        mkSnippet content index termLen = content.drop (index - 100)) := by
  refine ⟨?_, ?_, ?_, ?_⟩
  · simp only [mkSnippet, List.length_take, List.length_drop]
    omega
  · intro h1 h2
    simp only [mkSnippet, List.length_take, List.length_drop]
    omega
  · intro h
    have h0 : index - 100 = 0 := by omega
    simp [mkSnippet, h0]
  · intro h
    have hm : min content.length (index + termLen + 100) = content.length := by omega
    simp only [mkSnippet, hm]
    apply List.take_of_length_le
    simp

/-- Witness for C1: a match at offset 150 of a term of length 3 inside a
400-character document gives a snippet of exactly 203 characters. -/
theorem snippet_clipped_bound_check :
    (mkSnippet (List.replicate 400 'a') 150 3).length = 203 := by
  have h := (snippet_clipped_bound (List.replicate 400 'a') 150 3).2.1
    (by omega) (by simp)
  simpa using h

/-- A 300-character document with the term "hello" at offset 100. -/
def c1Doc : String :=
  String.mk (List.replicate 100 'b' ++ "hello".toList ++ List.replicate 195 'c')

/-- C1 (counterexample).  On a 300-character document matching "hello" at
offset 100, the search snippet machinery produces a snippet of 205
characters: the claimed bound of 200 fails because the matched term sits
between the 100 characters of context on each side. -/
theorem snippet_over_200_counterexample :
    firstTermResult ["hello"] c1Doc =
      some ("hello", String.mk (mkSnippet c1Doc.toList 100 5))
    ∧ (mkSnippet c1Doc.toList 100 5).length = 205
    ∧ ¬ ((mkSnippet c1Doc.toList 100 5).length ≤ 200) := by
  refine ⟨by decide, by decide, by decide⟩

/-- C2 (amended).  The phase-1 heading match scans the headings grouped by
tag, `h1` first through `h6`, in document order within each tag list, and
accepts the first match in that grouped order — not the first match in plain
document order. -/
theorem phase1_grouped_first_match (doc : List SNode) (section_lower : String) :
    phase1 doc section_lower =
      (phase1GroupedOrder doc).find? (fun h => headingMatchB section_lower h.2.2) := by
  have key : ∀ ls : List Nat,
      phase1Scan doc section_lower ls =
        (ls.flatMap (headingsOfLevel doc)).find?
          (fun h => headingMatchB section_lower h.2.2) := by
    intro ls
    induction ls with
    | nil => simp [phase1Scan]
    | cons l rest ih =>
      rw [phase1Scan]
      cases hf : (headingsOfLevel doc l).find? (fun h => headingMatchB section_lower h.2.2) with
      | some h => simp [List.flatMap_cons, List.find?_append, hf]
      | none => simp [List.flatMap_cons, List.find?_append, hf, ih]
  exact key headingTagLevels

/-- A document whose first heading in document order is an `h2` and whose
second is an `h1`, both of text "setup". -/
def c2Doc : List SNode := [.elem "h2" "setup", .elem "h1" "setup"]

/-- C2 (counterexample).  Looking up section "setup" in `c2Doc`, phase 1
returns the `h1` at document position 1 although the `h2` at position 0
matches and comes earlier in document order: the scan is grouped by tag, not
in document order. -/
theorem phase1_not_doc_order_counterexample :
    phase1 c2Doc "setup" = some (1, 1, "setup")
    ∧ phase1DocOrderSpec c2Doc "setup" = some (0, 2, "setup")
    ∧ phase1 c2Doc "setup" ≠ phase1DocOrderSpec c2Doc "setup" := by
  refine ⟨by decide, by decide, by decide⟩

/-- The heading test of the walk raises exactly on the nodes
`raisesHeadingCheck` marks, and otherwise returns the boundary verdict
`isBoundaryHeading` gives. -/
theorem headingCheck_cases (level : Nat) (n : SNode) :
    (raisesHeadingCheck n = true ∧ ∃ e, headingCheck level n = .error e)
    ∨ (raisesHeadingCheck n = false ∧ headingCheck level n = .ok (isBoundaryHeading level n)) := by
  cases n with
  | txt s => exact Or.inr ⟨rfl, rfl⟩
  | elem tag t =>
    by_cases hs : headingShaped tag = true
    · cases hl : tagLevel? tag with
      | none =>
        refine Or.inl ⟨?_, ⟨intValueErrorMsg (secondChar tag), ?_⟩⟩
        · simp [raisesHeadingCheck, hs, hl]
        · simp [headingCheck, hs, hl]
      | some l =>
        refine Or.inr ⟨?_, ?_⟩
        · simp [raisesHeadingCheck, hs, hl]
        · simp [headingCheck, isBoundaryHeading, hs, hl]
    · have hs2 : headingShaped tag = false := by simpa using hs
      refine Or.inr ⟨?_, ?_⟩
      · simp [raisesHeadingCheck, hs2]
      · simp [headingCheck, isBoundaryHeading, hs2]

/-- When the walk returns content and a stop node, they are exactly the
extracted text of the siblings before the first boundary heading and that
first boundary heading. -/
theorem boundaryWalk_ok_inv (level : Nat) :
    ∀ (siblings : List (Nat × SNode)) (content : List String) (stop : Option (Nat × SNode)),
      boundaryWalk level siblings = .ok (content, stop) →
      content = (siblings.takeWhile (fun p => !isBoundaryHeading level p.2)).filterMap
          (fun p => nodeText p.2)
      ∧ stop = siblings.find? (fun p => isBoundaryHeading level p.2) := by
  intro siblings
  induction siblings with
  | nil =>
    intro content stop h
    simp only [boundaryWalk, Except.ok.injEq, Prod.mk.injEq] at h
    obtain ⟨h1, h2⟩ := h
    exact ⟨h1.symm, h2.symm⟩
  | cons p rest ih =>
    intro content stop h
    simp only [boundaryWalk] at h
    cases hhc : headingCheck level p.2 with
    | error e =>
      rw [hhc] at h
      exact absurd h (by simp)
    | ok b =>
      rw [hhc] at h
      have hb : isBoundaryHeading level p.2 = b := by
        unfold isBoundaryHeading
        rw [hhc]
      cases b with
      | true =>
        simp only [Except.ok.injEq, Prod.mk.injEq] at h
        obtain ⟨h1, h2⟩ := h
        constructor
        · rw [← h1]
          simp [List.takeWhile_cons, hb]
        · rw [← h2]
          exact (show List.find? (fun q : Nat × SNode => isBoundaryHeading level q.2)
              (p :: rest) = some p from List.find?_cons_of_pos _ hb).symm
      | false =>
        cases hw : boundaryWalk level rest with
        | error e =>
          rw [hw] at h
          exact absurd h (by simp)
        | ok r =>
          rw [hw] at h
          simp only [Except.ok.injEq, Prod.mk.injEq] at h
          obtain ⟨h1, h2⟩ := h
          obtain ⟨ih1, ih2⟩ := ih r.1 r.2 (by rw [hw])
          constructor
          · rw [← h1]
            rw [show (p :: rest).takeWhile (fun q => !isBoundaryHeading level q.2) =
                p :: rest.takeWhile (fun q => !isBoundaryHeading level q.2) from by
              simp [List.takeWhile_cons, hb]]
            cases hnt : nodeText p.2 <;> simp [List.filterMap_cons, hnt, ih1]
          · rw [← h2, ih2]
            exact (List.find?_cons_of_neg _ (by simp [hb])).symm

/-- When a sibling before the boundary raises the heading test's
`ValueError`, the whole walk errors. -/
theorem boundaryWalk_raises (level : Nat) :
    ∀ siblings : List (Nat × SNode),
      (siblings.takeWhile (fun p => !isBoundaryHeading level p.2)).any
        (fun p => raisesHeadingCheck p.2) = true →
      ∃ e, boundaryWalk level siblings = .error e := by
  intro siblings
  induction siblings with
  | nil =>
    intro h
    simp at h
  | cons p rest ih =>
    intro h
    cases hb : isBoundaryHeading level p.2 with
    | true =>
      rw [show (p :: rest).takeWhile (fun q => !isBoundaryHeading level q.2) = [] from by
        simp [List.takeWhile_cons, hb]] at h
      simp at h
    | false =>
      rw [show (p :: rest).takeWhile (fun q => !isBoundaryHeading level q.2) =
          p :: rest.takeWhile (fun q => !isBoundaryHeading level q.2) from by
        simp [List.takeWhile_cons, hb]] at h
      simp only [List.any_cons, Bool.or_eq_true] at h
      rcases headingCheck_cases level p.2 with ⟨hr, e, he⟩ | ⟨hr, hok⟩
      · exact ⟨e, by simp [boundaryWalk, he]⟩
      · rw [hb] at hok
        rcases h with h | h
        · rw [hr] at h
          exact absurd h (by simp)
        · obtain ⟨e, he⟩ := ih h
          exact ⟨e, by simp [boundaryWalk, hok, he]⟩

/-- When no sibling before the boundary raises, the walk succeeds with
exactly the pre-boundary content and the first boundary as stop node. -/
theorem boundaryWalk_safe (level : Nat) :
    ∀ siblings : List (Nat × SNode),
      (siblings.takeWhile (fun p => !isBoundaryHeading level p.2)).all
          (fun p => !raisesHeadingCheck p.2) = true →
      boundaryWalk level siblings =
        .ok ((siblings.takeWhile (fun p => !isBoundaryHeading level p.2)).filterMap
            (fun p => nodeText p.2),
          siblings.find? (fun p => isBoundaryHeading level p.2)) := by
  intro siblings
  induction siblings with
  | nil =>
    intro _
    rfl
  | cons p rest ih =>
    intro h
    rcases headingCheck_cases level p.2 with ⟨hr, e, he⟩ | ⟨hr, hok⟩
    · have hb : isBoundaryHeading level p.2 = false := by
        simp [isBoundaryHeading, he]
      rw [show (p :: rest).takeWhile (fun q => !isBoundaryHeading level q.2) =
          p :: rest.takeWhile (fun q => !isBoundaryHeading level q.2) from by
        simp [List.takeWhile_cons, hb]] at h
      simp [hr] at h
    · cases hbv : isBoundaryHeading level p.2 with
      | true =>
        rw [hbv] at hok
        rw [show (p :: rest).takeWhile (fun q => !isBoundaryHeading level q.2) = [] from by
          simp [List.takeWhile_cons, hbv]]
        rw [show List.find? (fun q : Nat × SNode => isBoundaryHeading level q.2)
            (p :: rest) = some p from List.find?_cons_of_pos _ hbv]
        simp [boundaryWalk, hok]
      | false =>
        rw [hbv] at hok
        rw [show (p :: rest).takeWhile (fun q => !isBoundaryHeading level q.2) =
            p :: rest.takeWhile (fun q => !isBoundaryHeading level q.2) from by
          simp [List.takeWhile_cons, hbv]] at h ⊢
        simp only [List.all_cons, Bool.and_eq_true] at h
        have ihh := ih h.2
        rw [List.find?_cons_of_neg _ (by simp [hbv])]
        simp only [boundaryWalk, hok, ihh]
        cases hnt : nodeText p.2 <;> simp [List.filterMap_cons, hnt]

/-- C3 (amended).  When no following sibling before the boundary carries a
heading-shaped tag on which `int(name[1])` raises (such as `hr`), the walk
accumulates the extracted text of exactly the siblings that precede the
first boundary heading (a heading of level at most the matched level), stops
at that boundary without including its text, and — when no boundary exists —
accumulates every remaining sibling; nothing past the boundary ever reaches
the content.  When such a raising tag does occur before the boundary, the
walk raises `ValueError` instead, and no content at all is produced (the
whole `get_section` call returns an error string). -/
theorem sibling_walk_boundary (level : Nat) (siblings : List (Nat × SNode))
    (hsafe : (siblings.takeWhile (fun p => !isBoundaryHeading level p.2)).all
        (fun p => !raisesHeadingCheck p.2) = true) :
    boundaryWalk level siblings =
      .ok ((siblings.takeWhile (fun p => !isBoundaryHeading level p.2)).filterMap
          (fun p => nodeText p.2),
        siblings.find? (fun p => isBoundaryHeading level p.2))
    ∧ (∀ sibs2 : List (Nat × SNode),
        (sibs2.takeWhile (fun p => !isBoundaryHeading level p.2)).any
          (fun p => raisesHeadingCheck p.2) = true →
        ∃ e, boundaryWalk level sibs2 = .error e) :=
  ⟨boundaryWalk_safe level siblings hsafe, boundaryWalk_raises level⟩

/-- The spec's boundary scenario, as the siblings that follow the matched
`h2` heading: prose, the next `h2`, more prose, an `h1`. -/
def c3SpecSibs : List (Nat × SNode) :=
  [(1, .elem "p" "prose2"), (2, .elem "h2" "H3"), (3, .elem "p" "prose3"),
   (4, .elem "h1" "H4")]

/-- Witness for C3: on the spec's H2-extraction scenario the walk collects
only the prose before H3 and stops at H3. -/
theorem sibling_walk_boundary_check :
    boundaryWalk 2 c3SpecSibs = .ok (["prose2"], some (2, SNode.elem "h2" "H3")) := by
  rw [(sibling_walk_boundary 2 c3SpecSibs (by decide)).1]
  rfl

/-- Siblings of a matched `h2` heading that contain a horizontal rule
(`<hr>`, as a markdown `---` produces) before the boundary. -/
def c3HrSibs : List (Nat × SNode) :=
  [(1, .elem "p" "intro"), (2, .elem "hr" ""), (3, .elem "p" "more"),
   (4, .elem "h2" "next")]

/-- C3 (counterexample).  On siblings containing an `hr` element the tag
passes `name[0] == 'h' and len(name) == 2`, then `int('r')` raises
`ValueError`: the walk errors and accumulates nothing, instead of
accumulating the text of every sibling up to the boundary as claimed. -/
theorem hr_sibling_valueerror_counterexample :
    boundaryWalk 2 c3HrSibs = .error "invalid literal for int() with base 10: 'r'"
    ∧ boundaryWalk 2 c3HrSibs ≠
      .ok (["intro", "", "more"], some (4, SNode.elem "h2" "next")) := by
  refine ⟨rfl, ?_⟩
  intro hcontra
  rw [show boundaryWalk 2 c3HrSibs =
      Except.error "invalid literal for int() with base 10: 'r'" from rfl] at hcontra
  exact Except.noConfusion hcontra

/-- C8 (confirmed).  A query that strips to the empty string is rejected by
`search_docs` and `search_github` with the ask-for-a-query message, before
any fetch: the returned state is the argument state unchanged (caches and
fetch counters untouched). -/
theorem empty_query_rejected (docNet : String → Except String String)
    (urljoin : String → String → String) (parseAnchors : String → List String)
    (treeNet : String → TreeFetch) (ghNet : String → Except String String)
    (query : String) (s : ServerState) (h : pyStrip query = "") :
    search_docs docNet urljoin parseAnchors query s =
      (.text "Please provide a search query.", s)
    ∧ search_github treeNet ghNet query s =
      (.text "Please provide a search query.", s) := by
  have hq : pyLower (pyStrip query) = "" := by rw [h]; rfl
  constructor
  · simp [search_docs, hq]
  · simp [search_github, hq]

/-- Witness for C8: the three-space query is rejected with the state
`⟨[], [], 0, 0⟩` returned unchanged. -/
theorem empty_query_rejected_check :
    search_docs (fun _ => .error "net down") (fun a b => a ++ b) (fun _ => [])
        "   " ⟨[], [], 0, 0⟩ =
      (.text "Please provide a search query.", ⟨[], [], 0, 0⟩) :=
  (empty_query_rejected (fun _ => .error "net down") (fun a b => a ++ b) (fun _ => [])
    (fun _ => .notFound) (fun _ => .error "net down") "   " ⟨[], [], 0, 0⟩ (by decide)).1

/-- C10 (confirmed).  A page argument that already starts with `http` but
does not end in `.html` — such as the site root ending in a slash — has
`.html` appended by both `get_section` and `get_doc`, so the request goes to
a URL different from the one the caller supplied; for a relative page the
same appending applies to the joined URL. -/
theorem html_suffix_appended (urljoin : String → String → String) (page : String)
    (h1 : pyStartsWith page "http" = true) (h2 : pyEndsWith page ".html" = false) :
    get_section_url urljoin page = page ++ ".html"
    ∧ get_doc_url urljoin page = page ++ ".html"
    ∧ page ++ ".html" ≠ page
    ∧ (∀ p, pyStartsWith p "http" = false →
        pyEndsWith (urljoin DOCS_URL p) ".html" = false →
        get_section_url urljoin p = urljoin DOCS_URL p ++ ".html") := by
  refine ⟨?_, ?_, ?_, ?_⟩
  · simp [get_section_url, h1, h2]
  · simp [get_doc_url, h1, h2]
  · intro hcontra
    have hlen := congrArg String.length hcontra
    rw [String.length_append] at hlen
    have h5 : (".html" : String).length = 5 := rfl
    omega
  · intro p hp1 hp2
    simp [get_section_url, hp1, hp2]

/-- Witness for C10: the documentation site root — a full URL ending in a
slash — is fetched as the root with `.html` appended. -/
theorem html_suffix_appended_check :
    get_section_url (fun a _ => a) "https://openai.github.io/openai-agents-python/" =
      "https://openai.github.io/openai-agents-python/.html" :=
  (html_suffix_appended (fun a _ => a) "https://openai.github.io/openai-agents-python/"
      (by decide) (by decide)).1.trans (by decide)

/-- C4 (confirmed).  Both fetch helpers are get-or-fetch over their cache:
when a call returns content, an immediately repeated call with the same key
returns the same content from the cache with the state (hence the request
counter) unchanged, and the pair of calls issued at most one request; a call
whose fetch raises leaves the cache exactly as it was, so the repeated call
consults the network again (its counter increases). -/
theorem cache_get_or_fetch (docNet ghNet : String → Except String String)
    (url path : String) (s : ServerState) :
    (∀ v s1, fetch_doc_page docNet url s = (.ok v, s1) →
      fetch_doc_page docNet url s1 = (.ok v, s1) ∧ s1.docFetches ≤ s.docFetches + 1)
    ∧ (∀ e s1, fetch_doc_page docNet url s = (.error e, s1) →
      s1.doc_cache = s.doc_cache
      ∧ (fetch_doc_page docNet url s1).2.docFetches = s1.docFetches + 1)
    ∧ (∀ v s1, fetch_github_file ghNet path s = (.ok v, s1) →
      fetch_github_file ghNet path s1 = (.ok v, s1)
      ∧ s1.githubFetches ≤ s.githubFetches + 1)
    ∧ (∀ e s1, fetch_github_file ghNet path s = (.error e, s1) →
      s1.github_cache = s.github_cache
      ∧ (fetch_github_file ghNet path s1).2.githubFetches = s1.githubFetches + 1) := by
  refine ⟨?_, ?_, ?_, ?_⟩
  · intro v s1 h
    unfold fetch_doc_page at h ⊢
    cases hc : s.doc_cache.lookup url with
    | some cached =>
      rw [hc] at h
      obtain ⟨rfl, rfl⟩ := Prod.mk.injEq .. ▸ And.intro (congrArg Prod.fst h) (congrArg Prod.snd h)
      simp_all
    | none =>
      rw [hc] at h
      cases hn : docNet url with
      | ok c =>
        rw [hn] at h
        have h1 : Except.ok c = Except.ok v := congrArg Prod.fst h
        have h2 := congrArg Prod.snd h
        cases h1
        simp only at h2
        subst h2
        simp [List.lookup]
      | error e =>
        rw [hn] at h
        exact absurd (congrArg Prod.fst h) (by simp)
  · intro e s1 h
    unfold fetch_doc_page at h ⊢
    cases hc : s.doc_cache.lookup url with
    | some cached =>
      rw [hc] at h
      exact absurd (congrArg Prod.fst h) (by simp)
    | none =>
      rw [hc] at h
      cases hn : docNet url with
      | ok c =>
        rw [hn] at h
        exact absurd (congrArg Prod.fst h) (by simp)
      | error e2 =>
        rw [hn] at h
        have h2 := congrArg Prod.snd h
        simp only at h2
        subst h2
        refine ⟨rfl, ?_⟩
        simp only [hc]
  · intro v s1 h
    unfold fetch_github_file at h ⊢
    cases hc : s.github_cache.lookup path with
    | some cached =>
      rw [hc] at h
      obtain ⟨rfl, rfl⟩ := Prod.mk.injEq .. ▸ And.intro (congrArg Prod.fst h) (congrArg Prod.snd h)
      simp_all
    | none =>
      rw [hc] at h
      cases hn : ghNet path with
      | ok c =>
        rw [hn] at h
        have h1 : Except.ok c = Except.ok v := congrArg Prod.fst h
        have h2 := congrArg Prod.snd h
        cases h1
        simp only at h2
        subst h2
        simp [List.lookup]
      | error e =>
        rw [hn] at h
        exact absurd (congrArg Prod.fst h) (by simp)
  · intro e s1 h
    unfold fetch_github_file at h ⊢
    cases hc : s.github_cache.lookup path with
    | some cached =>
      rw [hc] at h
      exact absurd (congrArg Prod.fst h) (by simp)
    | none =>
      rw [hc] at h
      cases hn : ghNet path with
      | ok c =>
        rw [hn] at h
        exact absurd (congrArg Prod.fst h) (by simp)
      | error e2 =>
        rw [hn] at h
        have h2 := congrArg Prod.snd h
        simp only at h2
        subst h2
        refine ⟨rfl, ?_⟩
        simp only [hc]

/-- A mocked fetch collaborator for the cache witness: url "a" resolves,
everything else raises. -/
def c4Net : String → Except String String :=
  fun u => if u == "a" then .ok "A" else .error "not found"

/-- Witness for C4: after the first call cached "A" under "a" (one request,
counter 1), the repeated call returns the cached content with the state
unchanged; and a failed call for "b" leaves the cache empty. -/
theorem cache_get_or_fetch_check :
    fetch_doc_page c4Net "a" ⟨[("a", "A")], [], 1, 0⟩ =
      (.ok "A", ⟨[("a", "A")], [], 1, 0⟩)
    ∧ (⟨[], [], 1, 0⟩ : ServerState).doc_cache = (⟨[], [], 0, 0⟩ : ServerState).doc_cache := by
  constructor
  · exact ((cache_get_or_fetch c4Net c4Net "a" "p" ⟨[], [], 0, 0⟩).1 "A"
      ⟨[("a", "A")], [], 1, 0⟩ rfl).1
  · exact ((cache_get_or_fetch c4Net c4Net "b" "p" ⟨[], [], 0, 0⟩).2.1 "not found"
      ⟨[], [], 1, 0⟩ rfl).1

/-- The mocked repository for the C6 scenario: directory `root` lists the
file `a.py` and the directory `examples/`; `examples/` lists `b.py` and the
directory `nested/`; everything else is absent. -/
def c6Net : String → TreeFetch := fun u =>
  if u == GITHUB_URL ++ "/tree/main/root" then
    .ok ⟨[⟨true, some "File", [⟨blobPfx ++ "root/a.py", "a.py", true⟩]⟩,
          ⟨true, some "Directory", [⟨treePfx ++ "root/examples", "examples", true⟩]⟩], []⟩
  else if u == GITHUB_URL ++ "/tree/main/root/examples" then
    .ok ⟨[⟨true, some "File", [⟨blobPfx ++ "root/examples/b.py", "b.py", true⟩]⟩,
          ⟨true, some "Directory", [⟨treePfx ++ "root/examples/nested", "nested", true⟩]⟩], []⟩
  else .notFound

/-- The tree `process_directory` actually returns on the C6 scenario: the
`nested/` entry has `contents := none` — no note, no children key at all. -/
def c6Expected : PDResult :=
  .strct [⟨"a.py", "root/a.py", "py", some (ghFileUrl "root/a.py")⟩]
    [("examples", "root/examples", some (.strct
        [⟨"b.py", "root/examples/b.py", "py", some (ghFileUrl "root/examples/b.py")⟩]
        [("nested", "root/examples/nested", none)]
        "root/examples"))]
    "root"

/-- C6 (counterexample).  Crawling `root` with `max_depth = 2` over a
repository where `root` contains `a.py` and `examples/`, and `examples/`
contains `b.py` and `nested/`, yields a tree in which the `nested/` node is
listed with no contents and no depth-limit note: the recursion guard
`max_depth > 1` stops the descent one level early, so `process_directory` is
never invoked with `max_depth == 0` and the "Max depth reached" note is
never attached to any node of the crawl. -/
theorem nested_dir_no_note_counterexample :
    process_directory c6Net 2 "root" = c6Expected
    ∧ pdDirs (pdDirs (process_directory c6Net 2 "root") |>.head!.2.2.getD (.note "x"))
        = [("nested", "root/examples/nested", none)]
    ∧ (none : Option PDResult) ≠ some (.note "Max depth reached") := by
  refine ⟨rfl, rfl, fun h => Option.noConfusion h⟩

/-- C6 (amended).  The depth-limit note is produced only when
`process_directory` itself is invoked with `max_depth <= 0`; the crawl's
recursion guard `max_depth > 1` never makes such a call, so a directory at
the depth frontier (processed with `max_depth == 1`) is listed with its
files and subdirectories but none of its subdirectory entries carries
contents or a note. -/
theorem process_directory_depth_limit :
    (∀ (treeNet : String → TreeFetch) (dir_path : String),
      process_directory treeNet 0 dir_path = .note "Max depth reached")
    ∧ (∀ (treeNet : String → TreeFetch) (dir_path : String),
      (pdDirs (process_directory treeNet 1 dir_path)).all (fun e => e.2.2.isNone) = true) := by
  constructor
  · intro tn dp
    rfl
  · intro tn dp
    simp only [process_directory]
    cases h : tn (GITHUB_URL ++ "/tree/main/" ++ dp) with
    | notFound => simp [pdDirs]
    | failed e => simp [pdDirs]
    | ok page =>
      simp only [pdDirs, List.all_map, Function.comp]
      simp
      intro a a1 b x x1 _ _ _ hb
      exact hb.symm

/-- A section page: an `h2` heading, prose, a code block, prose, the next
`h2`, and trailing prose. -/
def c9Doc : List SNode :=
  [.elem "h2" "api", .elem "p" "intro", .elem "pre" "code1",
   .elem "p" "more", .elem "h2" "next", .elem "p" "after"]

/-- A section page whose matched heading has no later boundary heading. -/
def c9DocTail : List SNode :=
  [.elem "h2" "api", .elem "pre" "code9", .elem "p" "x"]

/-- C9 (counterexample).  Extracting the "api" section of `c9Doc` collects
the code block into `code_examples` but also appends its text to `content`
(the sibling walk appends the text of every non-boundary element, `pre`
included); and on `c9DocTail`, where the section runs to the end of the
document, the code block inside the section is not collected at all (the
`if next_heading and ...` guard fails when `next_heading` is `None`). -/
theorem pre_text_in_content_counterexample :
    get_section_extract c9Doc 0 2 "api" =
      .ok "api" ["intro", "code1", "more"] ["code1"]
    ∧ "code1" ∈ ["intro", "code1", "more"]
    ∧ get_section_extract c9DocTail 0 2 "api" = .ok "api" ["code9", "x"] [] := by
  refine ⟨by decide, by decide, by decide⟩

/-- Every position pair of `List.enum` is strictly increasing in its first
component. -/
theorem enum_pairwise_fst {α : Type} (l : List α) :
    List.Pairwise (fun p q => p.1 < q.1) l.enum := by
  rw [List.pairwise_iff_get]
  intro i j hij
  simp only [List.get_enum]
  exact hij

/-- A sibling strictly before the first boundary lies in the pre-boundary
prefix of the sibling list. -/
theorem mem_takeWhile_of_before_find (level : Nat) :
    ∀ (sib : List (Nat × SNode)) (i : Nat) (n : SNode) (j : Nat) (nj : SNode),
      List.Pairwise (fun p q => p.1 < q.1) sib →
      (i, n) ∈ sib →
      sib.find? (fun p => isBoundaryHeading level p.2) = some (j, nj) →
      i < j →
      (i, n) ∈ sib.takeWhile (fun p => !isBoundaryHeading level p.2) := by
  intro sib
  induction sib with
  | nil =>
    intro i n j nj _ hmem _ _
    exact absurd hmem (List.not_mem_nil _)
  | cons p rest ih =>
    intro i n j nj hpw hmem hfind hlt
    rw [List.pairwise_cons] at hpw
    cases hb : isBoundaryHeading level p.2 with
    | true =>
      rw [show List.find? (fun q : Nat × SNode => isBoundaryHeading level q.2) (p :: rest) =
          some p from List.find?_cons_of_pos _ hb] at hfind
      have hpj : p = (j, nj) := by injection hfind
      rcases List.mem_cons.mp hmem with heq | hrest
      · rw [← heq] at hpj
        have hij : i = j := congrArg Prod.fst hpj
        omega
      · have := hpw.1 _ hrest
        rw [hpj] at this
        omega
    | false =>
      rw [show List.find? (fun q : Nat × SNode => isBoundaryHeading level q.2) (p :: rest) =
          List.find? (fun q => isBoundaryHeading level q.2) rest from
          List.find?_cons_of_neg _ (by simp [hb])] at hfind
      rw [show (p :: rest).takeWhile (fun q => !isBoundaryHeading level q.2) =
          p :: rest.takeWhile (fun q => !isBoundaryHeading level q.2) from by
        simp [List.takeWhile_cons, hb]]
      rcases List.mem_cons.mp hmem with heq | hrest
      · exact heq ▸ List.mem_cons_self _ _
      · exact List.mem_cons_of_mem _ (ih i n j nj hpw.2 hrest hfind hlt)

/-- With no boundary heading found, the code-example collection of
`get_section` gathers nothing. -/
theorem sectionCodeExamples_none (doc : List SNode) (hIdx : Nat) :
    sectionCodeExamples doc hIdx none = [] := by
  refine List.filterMap_eq_nil.mpr ?_
  intro p _
  rcases p with ⟨i, n⟩
  cases n with
  | txt s => rfl
  | elem tg tx =>
    by_cases h1 : (tg == "pre") = true <;> by_cases h2 : hIdx < i <;> simp [h1, h2]

/-- C9 (amended).  A code/preformatted block positioned strictly between the
matched heading and the boundary heading is collected into the section's
`code_examples` list, but its text is also appended to `content` by the
sibling walk (`pre` is not excluded there); and when the walk finds no
boundary heading, no code block is collected at all.  The walk's success
hypothesis carries C3's proviso: a heading-shaped tag like `hr` before the
boundary would instead error the whole call. -/
theorem code_block_collection (doc : List SNode) (hIdx level pIdx : Nat)
    (t : String) (content : List String) (nh : Nat × SNode)
    (hget : doc.get? pIdx = some (.elem "pre" t))
    (hafter : hIdx < pIdx)
    (hok : extractSection doc hIdx level = .ok (content, some nh))
    (hbefore : pIdx < nh.1) :
    t ∈ content
    ∧ t ∈ sectionCodeExamples doc hIdx (some nh)
    ∧ (∀ (doc2 : List SNode) (h2 : Nat), sectionCodeExamples doc2 h2 none = []) := by
  obtain ⟨hcontent, hstop⟩ :=
    boundaryWalk_ok_inv level (doc.enum.drop (hIdx + 1)) content (some nh) hok
  have henum : doc.enum.get? pIdx = some (pIdx, SNode.elem "pre" t) := by
    rw [List.get?_enum, hget]
    rfl
  have hsib : (doc.enum.drop (hIdx + 1)).get? (pIdx - (hIdx + 1)) =
      some (pIdx, SNode.elem "pre" t) := by
    rw [List.get?_drop]
    have : hIdx + 1 + (pIdx - (hIdx + 1)) = pIdx := by omega
    rw [this, henum]
  have hmem : (pIdx, SNode.elem "pre" t) ∈ doc.enum.drop (hIdx + 1) :=
    List.get?_mem hsib
  have hpw : List.Pairwise (fun p q => p.1 < q.1) (doc.enum.drop (hIdx + 1)) :=
    (enum_pairwise_fst doc).sublist (List.drop_sublist _ _)
  have hfind : (doc.enum.drop (hIdx + 1)).find?
      (fun p => isBoundaryHeading level p.2) = some nh := hstop.symm
  rcases nh with ⟨j, nj⟩
  refine ⟨?_, ?_, ?_⟩
  · rw [hcontent]
    exact List.mem_filterMap.mpr
      ⟨(pIdx, SNode.elem "pre" t),
       mem_takeWhile_of_before_find level _ pIdx (SNode.elem "pre" t) j nj
         hpw hmem hfind hbefore, rfl⟩
  · refine List.mem_filterMap.mpr ⟨(pIdx, SNode.elem "pre" t), ?_, ?_⟩
    · exact List.mem_enum_iff_get?.mpr hget
    · simp only at hbefore
      simp [hafter, hbefore]
  · intro doc2 h2
    exact sectionCodeExamples_none doc2 h2

/-- Witness for C9: on `c9Doc` the block "code1" at position 2, between the
matched heading at 0 and the boundary at 4, lands in both the content and
the code examples. -/
theorem code_block_collection_check :
    "code1" ∈ ["intro", "code1", "more"]
    ∧ "code1" ∈ sectionCodeExamples c9Doc 0 (some (4, SNode.elem "h2" "next")) := by
  have h := code_block_collection c9Doc 0 2 2 "code1" ["intro", "code1", "more"]
    (4, SNode.elem "h2" "next") rfl (by decide) rfl (by decide)
  exact ⟨h.1, h.2.1⟩

/-- One step of the `search_docs` link loop appends at most one result. -/
theorem sdLinkStep_length_le (docNet : String → Except String String)
    (urljoin : String → String → String) (query_terms : List String)
    (acc : List JValue × ServerState) (link : String) :
    (sdLinkStep docNet urljoin query_terms acc link).1.length ≤ acc.1.length + 1 := by
  unfold sdLinkStep
  rcases hf : fetch_doc_page docNet (urljoin DOCS_URL link) acc.2 with ⟨r, st⟩
  cases r with
  | error e => simp [hf]
  | ok page_content =>
    cases hm : firstTermResult query_terms page_content with
    | some r2 => simp [hf, hm]
    | none => simp [hf, hm]

/-- The `search_docs` link loop appends at most one result per visited
link. -/
theorem sd_fold_length_le (docNet : String → Except String String)
    (urljoin : String → String → String) (query_terms : List String) :
    ∀ (links : List String) (acc : List JValue × ServerState),
      ((links.foldl (sdLinkStep docNet urljoin query_terms) acc).1).length ≤
        acc.1.length + links.length := by
  intro links
  induction links with
  | nil => intro acc; simp
  | cons l rest ih =>
    intro acc
    rw [List.foldl_cons]
    have h1 := ih (sdLinkStep docNet urljoin query_terms acc l)
    have h2 := sdLinkStep_length_le docNet urljoin query_terms acc l
    simp only [List.length_cons]
    omega

/-- C7 (amended).  Each processed document contributes at most one search
result per visit: the per-document block returns an `Option`, whose matched
term is the first term in query order contained in the lowercased content
and whose snippet is cut around that term's first occurrence; and a whole
`search_docs` call returns at most 21 results (the main page plus at most 20
links — but a page reachable through duplicate links is visited, and
reported, once per occurrence). -/
theorem first_term_per_visit :
    (∀ (query_terms : List String) (content : String),
      firstTermResult query_terms content =
        (query_terms.find? (fun term => pyContains term (pyLower content))).map
          (fun term => (term,
            String.mk (mkSnippet content.toList ((pyFind (pyLower content) term).getD 0)
              term.toList.length))))
    ∧ (∀ (docNet : String → Except String String)
        (urljoin : String → String → String) (parseAnchors : String → List String)
        (query : String) (s : ServerState) (xs : List JValue),
        resultsOf (search_docs docNet urljoin parseAnchors query s).1 = some xs →
        xs.length ≤ 21) := by
  constructor
  · intro query_terms content
    cases hf : query_terms.find? (fun term => pyContains term (pyLower content)) with
    | none =>
      have hany : query_terms.any (fun term => pyContains term (pyLower content)) = false := by
        rw [List.any_eq_false]
        intro x hx
        exact List.find?_eq_none.mp hf x hx
      simp [firstTermResult, hany]
    | some term =>
      have hp := List.find?_some (p := fun t => pyContains t (pyLower content)) hf
      have hany : query_terms.any (fun term => pyContains term (pyLower content)) = true :=
        List.any_eq_true.mpr ⟨term, List.mem_of_find?_eq_some hf, hp⟩
      simp [firstTermResult, hany, hf]
  · intro docNet urljoin parseAnchors query s xs hres
    unfold search_docs at hres
    by_cases hq : pyLower (pyStrip query) = ""
    · rw [if_pos hq] at hres
      simp [resultsOf] at hres
    · rw [if_neg hq] at hres
      rcases hf : fetch_doc_page docNet DOCS_URL s with ⟨r1, s1⟩
      rw [hf] at hres
      cases r1 with
      | error e => simp [resultsOf] at hres
      | ok content =>
        simp only at hres
        set query_terms := pySplitWs (pyLower (pyStrip query)) with hterms
        set links := (parseAnchors content).filter linkAllowed with hlinks
        set mainResults := (match firstTermResult query_terms content with
          | some r => [docResultEntry DOCS_URL "Main Page" r.2]
          | none => ([] : List JValue)) with hmain
        have hmlen : mainResults.length ≤ 1 := by
          rw [hmain]
          cases firstTermResult query_terms content <;> simp
        by_cases hemp :
            ((links.take 20).foldl (sdLinkStep docNet urljoin query_terms)
              (mainResults, s1)).1.isEmpty
        · rw [if_pos hemp] at hres
          simp [resultsOf] at hres
        · rw [if_neg hemp] at hres
          simp only [resultsOf] at hres
          have hxs : xs = ((links.take 20).foldl (sdLinkStep docNet urljoin query_terms)
              (mainResults, s1)).1 := by
            injection hres with h
            exact h.symm
          have hb : ((links.take 20).foldl (sdLinkStep docNet urljoin query_terms)
              (mainResults, s1)).1.length ≤ mainResults.length + (links.take 20).length :=
            sd_fold_length_le docNet urljoin query_terms (links.take 20) (mainResults, s1)
          have htake : (links.take 20).length ≤ 20 := by
            simp [List.length_take]
          rw [hxs]
          omega

/-- A mocked documentation site for C7: the main page says "alpha", every
other page contains "zzz". -/
def c7Net : String → Except String String := fun u =>
  if u == DOCS_URL then .ok "alpha" else .ok "zzz inside"

/-- C7 (counterexample).  With the main page linking twice to the same
relative href "p.html", `search_docs` visits the page twice (the second
visit served from the cache) and returns two results for that one document:
at most one result holds per visit, not per document. -/
theorem duplicate_link_two_results_counterexample :
    jsonUrls (search_docs c7Net (fun a b => a ++ b) (fun _ => ["p.html", "p.html"])
        "zzz" ⟨[], [], 0, 0⟩).1 =
      [DOCS_URL ++ "p.html", DOCS_URL ++ "p.html"]
    ∧ ¬ (jsonUrls (search_docs c7Net (fun a b => a ++ b) (fun _ => ["p.html", "p.html"])
        "zzz" ⟨[], [], 0, 0⟩).1).Nodup := by
  refine ⟨by decide, by decide⟩

/-- Witness for C7: the per-document block matches "zzz inside" on the
second query term, the first one in query order that occurs. -/
theorem first_term_per_visit_check :
    firstTermResult ["beta", "zzz"] "zzz inside" = some ("zzz", "zzz inside") := by
  rw [first_term_per_visit.1]
  decide

/-- No term of the query occurs in the lowercased content. -/
def noTermHit (query_terms : List String) (content : String) : Prop :=
  ∀ t ∈ query_terms, pyContains t (pyLower content) = false

/-- A document hit by no query term produces no search result. -/
theorem firstTermResult_eq_none (query_terms : List String) (content : String)
    (h : noTermHit query_terms content) : firstTermResult query_terms content = none := by
  have hany : query_terms.any (fun term => pyContains term (pyLower content)) = false := by
    rw [List.any_eq_false]
    intro x hx
    simp [h x hx]
  simp [firstTermResult, hany]

/-- A value served by `List.lookup` is a value of the list. -/
theorem lookup_val_mem {β : Type} (l : List (String × β)) (k : String) (v : β)
    (h : l.lookup k = some v) : ∃ kv ∈ l, kv.2 = v := by
  induction l with
  | nil => simp [List.lookup] at h
  | cons p rest ih =>
    rcases p with ⟨k1, v1⟩
    rw [List.lookup] at h
    cases hk : k == k1 with
    | true =>
      rw [hk] at h
      exact ⟨(k1, v1), List.mem_cons_self _ _, Option.some.inj h⟩
    | false =>
      rw [hk] at h
      obtain ⟨kv, hmem, hval⟩ := ih h
      exact ⟨kv, List.mem_cons_of_mem _ hmem, hval⟩

/-- Every cached documentation page misses every query term. -/
def docCacheClean (query_terms : List String) (s : ServerState) : Prop :=
  ∀ kv ∈ s.doc_cache, noTermHit query_terms kv.2

/-- Every cached repository file misses every query term. -/
def ghCacheClean (query_terms : List String) (s : ServerState) : Prop :=
  ∀ kv ∈ s.github_cache, noTermHit query_terms kv.2

/-- A documentation fetch over a term-free network and a term-free cache
keeps the cache term-free and returns only term-free content. -/
theorem fetch_doc_clean (docNet : String → Except String String)
    (query_terms : List String)
    (hnet : ∀ u c, docNet u = .ok c → noTermHit query_terms c)
    (u : String) (s : ServerState) (hs : docCacheClean query_terms s) :
    docCacheClean query_terms (fetch_doc_page docNet u s).2
    ∧ (∀ c, (fetch_doc_page docNet u s).1 = .ok c → noTermHit query_terms c)
    ∧ (fetch_doc_page docNet u s).2.github_cache = s.github_cache := by
  unfold fetch_doc_page
  cases hc : s.doc_cache.lookup u with
  | some cached =>
    refine ⟨hs, ?_, rfl⟩
    intro c h
    have hcv : c = cached := by injection h with h2; exact h2.symm
    obtain ⟨kv, hmem, hval⟩ := lookup_val_mem _ _ _ hc
    rw [hcv, ← hval]
    exact hs kv hmem
  | none =>
    cases hn : docNet u with
    | ok c2 =>
      refine ⟨?_, ?_, rfl⟩
      · intro kv hkv
        rcases List.mem_cons.mp hkv with heq | hmem
        · rw [heq]
          exact hnet u c2 hn
        · exact hs kv hmem
      · intro c h
        have : c = c2 := by injection h with h2; exact h2.symm
        rw [this]
        exact hnet u c2 hn
    | error e =>
      exact ⟨hs, fun c h => absurd h (by simp), rfl⟩

/-- A repository-file fetch over a term-free network and a term-free cache
keeps the cache term-free and returns only term-free content. -/
theorem fetch_github_clean (ghNet : String → Except String String)
    (query_terms : List String)
    (hnet : ∀ p c, ghNet p = .ok c → noTermHit query_terms c)
    (p : String) (s : ServerState) (hs : ghCacheClean query_terms s) :
    ghCacheClean query_terms (fetch_github_file ghNet p s).2
    ∧ (∀ c, (fetch_github_file ghNet p s).1 = .ok c → noTermHit query_terms c) := by
  unfold fetch_github_file
  cases hc : s.github_cache.lookup p with
  | some cached =>
    refine ⟨hs, ?_⟩
    intro c h
    have hcv : c = cached := by injection h with h2; exact h2.symm
    obtain ⟨kv, hmem, hval⟩ := lookup_val_mem _ _ _ hc
    rw [hcv, ← hval]
    exact hs kv hmem
  | none =>
    cases hn : ghNet p with
    | ok c2 =>
      refine ⟨?_, ?_⟩
      · intro kv hkv
        rcases List.mem_cons.mp hkv with heq | hmem
        · rw [heq]
          exact hnet p c2 hn
        · exact hs kv hmem
      · intro c h
        have : c = c2 := by injection h with h2; exact h2.symm
        rw [this]
        exact hnet p c2 hn
    | error e =>
      exact ⟨hs, fun c h => absurd h (by simp)⟩

/-- The `search_docs` link loop adds no result when every fetched page is
term-free. -/
theorem sd_fold_empty (docNet : String → Except String String)
    (urljoin : String → String → String) (query_terms : List String)
    (hnet : ∀ u c, docNet u = .ok c → noTermHit query_terms c) :
    ∀ (links : List String) (s : ServerState), docCacheClean query_terms s →
      ((links.foldl (sdLinkStep docNet urljoin query_terms) ([], s)).1 = []) := by
  intro links
  induction links with
  | nil =>
    intro s hs
    simp
  | cons l rest ih =>
    intro s hs
    rw [List.foldl_cons]
    have hstep := fetch_doc_clean docNet query_terms hnet (urljoin DOCS_URL l) s hs
    rcases hf : fetch_doc_page docNet (urljoin DOCS_URL l) s with ⟨r, st⟩
    rw [hf] at hstep
    cases r with
    | error e =>
      have hone : sdLinkStep docNet urljoin query_terms ([], s) l = ([], st) := by
        simp [sdLinkStep, hf]
      rw [hone]
      exact ih st hstep.1
    | ok pc =>
      have hclean : noTermHit query_terms pc := hstep.2.1 pc rfl
      have hnone := firstTermResult_eq_none query_terms pc hclean
      have hone : sdLinkStep docNet urljoin query_terms ([], s) l = ([], st) := by
        simp [sdLinkStep, hf, hnone]
      rw [hone]
      exact ih st hstep.1

/-- `search_docs` with a reachable main page and no term hit anywhere
returns the plain no-results text. -/
theorem search_docs_no_match (docNet : String → Except String String)
    (urljoin : String → String → String) (parseAnchors : String → List String)
    (query : String) (s : ServerState)
    (hq : pyLower (pyStrip query) ≠ "")
    (hnet : ∀ u c, docNet u = .ok c → noTermHit (pySplitWs (pyLower (pyStrip query))) c)
    (hcache : docCacheClean (pySplitWs (pyLower (pyStrip query))) s)
    (hmain : ∃ content s1, fetch_doc_page docNet DOCS_URL s = (.ok content, s1)) :
    (search_docs docNet urljoin parseAnchors query s).1 =
      .text ("No results found for your query: '" ++ pyLower (pyStrip query) ++
        "'. Try a different search term or check the documentation index.") := by
  obtain ⟨content, s1, hf⟩ := hmain
  have hstep := fetch_doc_clean docNet _ hnet DOCS_URL s hcache
  rw [hf] at hstep
  have hcclean : noTermHit (pySplitWs (pyLower (pyStrip query))) content := hstep.2.1 content rfl
  have hmainres := firstTermResult_eq_none _ content hcclean
  unfold search_docs
  rw [if_neg hq, hf]
  simp only [hmainres]
  have hempty := sd_fold_empty docNet urljoin (pySplitWs (pyLower (pyStrip query))) hnet
    (((parseAnchors content).filter linkAllowed).take 20) s1 hstep.1
  simp [hempty]

/-- The root-file loop of `search_github` adds no result when every file is
term-free; the cache invariant survives. -/
theorem gh_root_fold_empty (ghNet : String → Except String String)
    (query_terms : List String)
    (hnet : ∀ p c, ghNet p = .ok c → noTermHit query_terms c) :
    ∀ (files : List NamePath) (errs : List String) (s : ServerState),
      ghCacheClean query_terms s →
      (files.foldl (ghRootStep ghNet query_terms) ([], errs, s)).1 = []
      ∧ ghCacheClean query_terms
          (files.foldl (ghRootStep ghNet query_terms) ([], errs, s)).2.2 := by
  intro files
  induction files with
  | nil =>
    intro errs s hs
    exact ⟨rfl, hs⟩
  | cons f rest ih =>
    intro errs s hs
    rw [List.foldl_cons]
    by_cases hp : f.path = ""
    · have hone : ghRootStep ghNet query_terms ([], errs, s) f = ([], errs, s) := by
        simp [ghRootStep, hp]
      rw [hone]
      exact ih errs s hs
    · have hstep := fetch_github_clean ghNet query_terms hnet f.path s hs
      rcases hf : fetch_github_file ghNet f.path s with ⟨r, st⟩
      rw [hf] at hstep
      cases r with
      | error e =>
        have hone : ghRootStep ghNet query_terms ([], errs, s) f =
            ([], errs ++ ["Error checking root file " ++ f.name ++ ": " ++ e], st) := by
          simp [ghRootStep, hp, hf]
        rw [hone]
        exact ih _ st hstep.1
      | ok c =>
        have hclean := hstep.2 c rfl
        have hnone := firstTermResult_eq_none query_terms c hclean
        have hone : ghRootStep ghNet query_terms ([], errs, s) f = ([], errs, st) := by
          simp [ghRootStep, hp, hf, hnone]
        rw [hone]
        exact ih errs st hstep.1

/-- The per-row loop of `search_directory` in `search_github` adds no result
when every fetched file is term-free; the cache invariant survives. -/
theorem gh_dir_fold_empty (ghNet : String → Except String String)
    (query_terms : List String)
    (hnet : ∀ p c, ghNet p = .ok c → noTermHit query_terms c) :
    ∀ (rows : List GhRow) (errs : List String) (s : ServerState),
      ghCacheClean query_terms s →
      (rows.foldl (ghDirRowStep ghNet query_terms) ([], errs, s)).1 = []
      ∧ ghCacheClean query_terms
          (rows.foldl (ghDirRowStep ghNet query_terms) ([], errs, s)).2.2 := by
  intro rows
  induction rows with
  | nil =>
    intro errs s hs
    exact ⟨rfl, hs⟩
  | cons item rest ih =>
    intro errs s hs
    rw [List.foldl_cons]
    cases hl : selectPjax item with
    | none =>
      have hone : ghDirRowStep ghNet query_terms ([], errs, s) item = ([], errs, s) := by
        simp [ghDirRowStep, hl]
      rw [hone]
      exact ih errs s hs
    | some link =>
      by_cases hext : pyEndsWith (pyReplace link.href blobPfx "") ".py" = true ∨
          pyEndsWith (pyReplace link.href blobPfx "") ".md" = true
      · have hstep := fetch_github_clean ghNet query_terms hnet
          (pyReplace link.href blobPfx "") s hs
        rcases hf : fetch_github_file ghNet (pyReplace link.href blobPfx "") s with ⟨r, st⟩
        rw [hf] at hstep
        have hcond : (pyEndsWith (pyReplace link.href blobPfx "") ".py" ||
            pyEndsWith (pyReplace link.href blobPfx "") ".md") = true := by
          rcases hext with h | h <;> simp [h]
        cases r with
        | error e =>
          have hone : ghDirRowStep ghNet query_terms ([], errs, s) item =
              ([], errs ++ ["Error processing file " ++ (pyReplace link.href blobPfx "") ++
                ": " ++ e], st) := by
            simp [ghDirRowStep, hl, hcond, hf]
          rw [hone]
          exact ih _ st hstep.1
        | ok c =>
          have hclean := hstep.2 c rfl
          have hnone := firstTermResult_eq_none query_terms c hclean
          have hone : ghDirRowStep ghNet query_terms ([], errs, s) item = ([], errs, st) := by
            simp [ghDirRowStep, hl, hcond, hf, hnone]
          rw [hone]
          exact ih errs st hstep.1
      · have hcond : (pyEndsWith (pyReplace link.href blobPfx "") ".py" ||
            pyEndsWith (pyReplace link.href blobPfx "") ".md") = false := by
          push_neg at hext
          simp [hext.1, hext.2]
        have hone : ghDirRowStep ghNet query_terms ([], errs, s) item = ([], errs, s) := by
          simp [ghDirRowStep, hl, hcond]
        rw [hone]
        exact ih errs s hs

/-- One `search_directory` call of `search_github` over a term-free network
returns no result and keeps the cache invariant. -/
theorem gh_search_directory_empty (treeNet : String → TreeFetch)
    (ghNet : String → Except String String) (query_terms : List String)
    (hnet : ∀ p c, ghNet p = .ok c → noTermHit query_terms c)
    (dir_path : String) (s : ServerState) (hs : ghCacheClean query_terms s) :
    (gh_search_directory treeNet ghNet query_terms dir_path s).1 = []
    ∧ ghCacheClean query_terms (gh_search_directory treeNet ghNet query_terms dir_path s).2.2 := by
  unfold gh_search_directory
  cases treeNet (GITHUB_URL ++ "/tree/main/" ++ dir_path) with
  | notFound => exact ⟨rfl, hs⟩
  | failed e => exact ⟨rfl, hs⟩
  | ok page => exact gh_dir_fold_empty ghNet query_terms hnet page.rows [] s hs

/-- The key-directory fan-out of `search_github` preserves an empty result
list over a term-free network. -/
theorem gh_fan_fold_empty (treeNet : String → TreeFetch)
    (ghNet : String → Except String String) (query_terms : List String)
    (hnet : ∀ p c, ghNet p = .ok c → noTermHit query_terms c) :
    ∀ (dirs : List String) (errs : List String) (s : ServerState),
      ghCacheClean query_terms s →
      (dirs.foldl (ghDirFanStep treeNet ghNet query_terms) ([], errs, s)).1 = [] := by
  intro dirs
  induction dirs with
  | nil =>
    intro errs s hs
    rfl
  | cons d rest ih =>
    intro errs s hs
    rw [List.foldl_cons]
    have hdir := gh_search_directory_empty treeNet ghNet query_terms hnet d s hs
    rcases hd : gh_search_directory treeNet ghNet query_terms d s with ⟨dres, derrs, dst⟩
    rw [hd] at hdir
    have hone : ghDirFanStep treeNet ghNet query_terms ([], errs, s) d =
        ([], errs ++ derrs, dst) := by
      simp [ghDirFanStep, hd, hdir.1]
    rw [hone]
    exact ih (errs ++ derrs) dst hdir.2

/-- `search_github` with no term hit anywhere returns the JSON error payload
whose `debug_info` lists the searched directories. -/
theorem search_github_no_match (treeNet : String → TreeFetch)
    (ghNet : String → Except String String) (query : String) (s : ServerState)
    (hq : pyLower (pyStrip query) ≠ "")
    (hnet : ∀ p c, ghNet p = .ok c → noTermHit (pySplitWs (pyLower (pyStrip query))) c)
    (hcache : ghCacheClean (pySplitWs (pyLower (pyStrip query))) s) :
    errorField (search_github treeNet ghNet query s).1 =
      some (.s ("No results found in the GitHub repository for query: '" ++
        pyLower (pyStrip query) ++ "'. Try different search terms."))
    ∧ debugDirs (search_github treeNet ghNet query s).1 =
      some (.arr (ghKeyDirs.map JValue.s)) := by
  unfold search_github
  rw [if_neg hq]
  cases hsm : (get_github_structure treeNet).errorMsg with
  | some e =>
    simp only [hsm]
    have hroot := gh_root_fold_empty ghNet _ hnet []
      ["Error getting repository structure: " ++ e] s hcache
    rcases haft : ([] : List NamePath).foldl
        (ghRootStep ghNet (pySplitWs (pyLower (pyStrip query))))
        ([], ["Error getting repository structure: " ++ e], s) with ⟨r0, e0, s0⟩
    rw [haft] at hroot
    have hr0 : r0 = [] := hroot.1
    subst hr0
    have hfan := gh_fan_fold_empty treeNet ghNet _ hnet ghKeyDirs e0 s0 hroot.2
    rcases hfanres : ghKeyDirs.foldl
        (ghDirFanStep treeNet ghNet (pySplitWs (pyLower (pyStrip query))))
        ([], e0, s0) with ⟨fr, fe, fs⟩
    rw [hfanres] at hfan
    have hfr : fr = [] := hfan
    subst hfr
    exact ⟨rfl, rfl⟩
  | none =>
    simp only [hsm]
    have hroot := gh_root_fold_empty ghNet _ hnet (get_github_structure treeNet).files [] s hcache
    rcases haft : (get_github_structure treeNet).files.foldl
        (ghRootStep ghNet (pySplitWs (pyLower (pyStrip query)))) ([], [], s) with ⟨r0, e0, s0⟩
    rw [haft] at hroot
    have hr0 : r0 = [] := hroot.1
    subst hr0
    have hfan := gh_fan_fold_empty treeNet ghNet _ hnet ghKeyDirs e0 s0 hroot.2
    rcases hfanres : ghKeyDirs.foldl
        (ghDirFanStep treeNet ghNet (pySplitWs (pyLower (pyStrip query))))
        ([], e0, s0) with ⟨fr, fe, fs⟩
    rw [hfanres] at hfan
    have hfr : fr = [] := hfan
    subst hfr
    exact ⟨rfl, rfl⟩

/-- The anchor `selectPjax` resolves is one of the row's anchors. -/
theorem selectPjax_mem (r : GhRow) (l : GhLink) (h : selectPjax r = some l) :
    l ∈ r.links :=
  List.mem_of_find?_eq_some h

/-- The anchor `rowPrimaryLink` resolves is one of the row's anchors. -/
theorem rowPrimaryLink_mem (r : GhRow) (l : GhLink) (h : rowPrimaryLink r = some l) :
    l ∈ r.links := by
  unfold rowPrimaryLink at h
  cases h1 : selectPjax r with
  | some l1 =>
    rw [h1] at h
    injection h with h2
    rw [← h2]
    exact selectPjax_mem r l1 h1
  | none =>
    rw [h1] at h
    cases h2 : selectHref "/blob/main/" r with
    | some l2 =>
      rw [h2] at h
      injection h with h3
      rw [← h3]
      exact List.mem_of_find?_eq_some h2
    | none =>
      rw [h2] at h
      cases h3 : selectHref "/tree/main/" r with
      | some l3 =>
        rw [h3] at h
        injection h with h4
        rw [← h4]
        exact List.mem_of_find?_eq_some h3
      | none =>
        rw [h3] at h
        unfold selectAny at h
        cases hls : r.links with
        | nil =>
          rw [hls] at h
          simp at h
        | cons hd tl =>
          rw [hls] at h
          simp only [List.head?] at h
          injection h with h5
          rw [← h5]
          exact List.mem_cons_self _ _

/-- No anchor text anywhere on the mocked site contains the pattern. -/
def sfNamesClean (pattern : String) (treeNet : String → TreeFetch) : Prop :=
  ∀ u pg, treeNet u = .ok pg →
    (∀ r ∈ pg.rows, ∀ l ∈ r.links, pyContains pattern (pyLower l.text) = false)
    ∧ (∀ l ∈ pg.contentLinks, pyContains pattern (pyLower l.text) = false)

/-- The per-row loop of `search_directory` in `search_files` adds no match
when no row's anchor text contains the pattern. -/
theorem sf_row_fold_no_match (pattern dir_path : String) :
    ∀ (rows : List GhRow)
      (hclean : ∀ r ∈ rows, ∀ l ∈ r.links, pyContains pattern (pyLower l.text) = false)
      (errs subdirs : List String),
      (rows.foldl (sfRowStep pattern dir_path) ([], errs, subdirs)).1 = [] := by
  intro rows
  induction rows with
  | nil =>
    intro _ errs subdirs
    rfl
  | cons item rest ih =>
    intro hclean errs subdirs
    rw [List.foldl_cons]
    have hrest := fun r hr => hclean r (List.mem_cons_of_mem _ hr)
    cases hl : selectPjax item with
    | none =>
      have hone : sfRowStep pattern dir_path ([], errs, subdirs) item = ([], errs, subdirs) := by
        simp [sfRowStep, hl]
      rw [hone]
      exact ih hrest errs subdirs
    | some link =>
      have hname : pyContains pattern (pyLower link.text) = false :=
        hclean item (List.mem_cons_self _ _) link (selectPjax_mem item link hl)
      by_cases hsvg : item.hasSvg
      · cases hal : item.ariaLabel with
        | none =>
          have hone : sfRowStep pattern dir_path ([], errs, subdirs) item =
              ([], errs, subdirs) := by
            simp [sfRowStep, hl, hsvg, hal, hname]
          rw [hone]
          exact ih hrest errs subdirs
        | some lbl =>
          by_cases hlbl : lbl = ""
          · have hone : sfRowStep pattern dir_path ([], errs, subdirs) item =
                ([], errs, subdirs) := by
              simp [sfRowStep, hl, hsvg, hal, hlbl, hname]
            rw [hone]
            exact ih hrest errs subdirs
          · by_cases hdir : pyContains "dir" (pyLower lbl) = true
            · have hone : sfRowStep pattern dir_path ([], errs, subdirs) item =
                  ([], errs, subdirs ++ [dir_path ++ "/" ++ link.text]) := by
                simp [sfRowStep, hl, hsvg, hal, hlbl, hdir]
              rw [hone]
              exact ih hrest errs _
            · have hdirf : pyContains "dir" (pyLower lbl) = false := by
                simpa using hdir
              have hone : sfRowStep pattern dir_path ([], errs, subdirs) item =
                  ([], errs, subdirs) := by
                simp [sfRowStep, hl, hsvg, hal, hlbl, hdirf, hname]
              rw [hone]
              exact ih hrest errs subdirs
      · have hone : sfRowStep pattern dir_path ([], errs, subdirs) item =
            ([], errs ++ ["Error processing item in " ++ dir_path ++ ": AttributeError"],
              subdirs) := by
          simp [sfRowStep, hl, hsvg]
        rw [hone]
        exact ih hrest _ subdirs

/-- The subdirectory recursion loop of `search_files` preserves an empty
match list when every recursive call returns none. -/
theorem sf_subfold_no_match (f : String → List JValue × List String)
    (hf : ∀ d, (f d).1 = []) :
    ∀ (subdirs : List String) (errs : List String),
      ((subdirs.foldl (sfSubdirStep f) ([], errs)).1 = []) := by
  intro subdirs
  induction subdirs with
  | nil =>
    intro errs
    rfl
  | cons d rest ih =>
    intro errs
    rw [List.foldl_cons]
    by_cases hg : (pySplitChar '/' d.toList).length ≤ 3
    · have hone : sfSubdirStep f ([], errs) d = ([], errs ++ (f d).2) := by
        unfold sfSubdirStep
        rw [if_pos hg]
        simp [hf d]
      rw [hone]
      exact ih _
    · have hone : sfSubdirStep f ([], errs) d = ([], errs) := by
        unfold sfSubdirStep
        rw [if_neg hg]
      rw [hone]
      exact ih errs

/-- A `search_directory` call of `search_files` over a site whose anchor
texts never contain the pattern returns no match, at any fuel. -/
theorem sf_search_directory_no_match (treeNet : String → TreeFetch) (pattern : String)
    (hclean : sfNamesClean pattern treeNet) :
    ∀ (fuel : Nat) (dir_path : String),
      (sf_search_directory treeNet pattern fuel dir_path).1 = [] := by
  intro fuel
  induction fuel with
  | zero =>
    intro dir_path
    rfl
  | succ fuel ih =>
    intro dir_path
    unfold sf_search_directory
    cases ht : treeNet (GITHUB_URL ++ "/tree/main/" ++ dir_path) with
    | notFound => rfl
    | failed e => rfl
    | ok page =>
      have hrows := (hclean _ _ ht).1
      dsimp only
      rcases hfold : page.rows.foldl (sfRowStep pattern dir_path) ([], [], []) with ⟨m, e2, sub⟩
      have hm : m = [] := by
        have h2 := sf_row_fold_no_match pattern dir_path page.rows hrows [] []
        rw [hfold] at h2
        exact h2
      subst hm
      exact sf_subfold_no_match (sf_search_directory treeNet pattern fuel) ih sub e2

/-- A root-structure row entry takes its display name from one of the row's
anchors. -/
theorem ghsProcessItem_name (item : GhRow) (b : Bool) (np : NamePath)
    (h : ghsProcessItem item = some (b, np)) :
    ∃ l ∈ item.links, np.name = l.text := by
  unfold ghsProcessItem at h
  cases hl : rowPrimaryLink item with
  | none =>
    rw [hl] at h
    exact absurd h (by simp)
  | some link =>
    rw [hl] at h
    dsimp only at h
    split at h
    all_goals try split at h
    all_goals try split at h
    all_goals try split at h
    all_goals
      first
        | (injection h with h2
           exact ⟨link, rowPrimaryLink_mem _ _ hl,
             (congrArg (fun x : Bool × NamePath => x.2.name) h2).symm⟩)
        | injection h

/-- An alternative-scan structure entry takes its display name from the
content-area anchor it came from. -/
theorem ghsAltItem_name (link : GhLink) (b : Bool) (np : NamePath)
    (h : ghsAltItem link = some (b, np)) : np.name = link.text := by
  unfold ghsAltItem at h
  dsimp only at h
  split at h
  all_goals try split at h
  all_goals try split at h
  all_goals try split at h
  all_goals
    first
      | (injection h with h2
         exact (congrArg (fun x : Bool × NamePath => x.2.name) h2).symm)
      | injection h

/-- Over a site whose anchor texts never contain the pattern, every file of
the parsed repository structure has a pattern-free name. -/
theorem ghs_files_clean (treeNet : String → TreeFetch) (pattern : String)
    (hclean : sfNamesClean pattern treeNet) :
    ∀ f ∈ (get_github_structure treeNet).files,
      pyContains pattern (pyLower f.name) = false := by
  intro f hf
  unfold get_github_structure at hf
  cases ht : treeNet (GITHUB_URL ++ "/tree/main") with
  | notFound =>
    rw [ht] at hf
    exact absurd hf (List.not_mem_nil f)
  | failed e =>
    rw [ht] at hf
    exact absurd hf (List.not_mem_nil f)
  | ok page =>
    rw [ht] at hf
    dsimp only at hf
    split at hf
    · split at hf
      · exact absurd hf (List.not_mem_nil f)
      · simp only [List.mem_map] at hf
        obtain ⟨pair, hpair, hname⟩ := hf
        have hpair2 := List.mem_of_mem_filter hpair
        simp only [List.mem_filterMap] at hpair2
        obtain ⟨link, hlink, halt⟩ := hpair2
        have hnm := ghsAltItem_name link pair.1 pair.2 (by rw [halt])
        rw [← hname, hnm]
        exact (hclean _ _ ht).2 link hlink
    · split at hf
      · exact absurd hf (List.not_mem_nil f)
      · simp only [List.mem_map] at hf
        obtain ⟨pair, hpair, hname⟩ := hf
        have hpair2 := List.mem_of_mem_filter hpair
        simp only [List.mem_filterMap] at hpair2
        obtain ⟨item, hitem, hproc⟩ := hpair2
        obtain ⟨l, hlmem, hlname⟩ := ghsProcessItem_name item pair.1 pair.2 (by rw [hproc])
        rw [← hname, hlname]
        exact (hclean _ _ ht).1 item hitem l hlmem

/-- The root-file loop of `search_files` adds no match when every structure
file name is pattern-free. -/
theorem sf_root_fold_no_match (pattern : String) :
    ∀ (files : List NamePath)
      (h : ∀ f ∈ files, pyContains pattern (pyLower f.name) = false),
      files.foldl (sfRootStep pattern) [] = [] := by
  intro files
  induction files with
  | nil =>
    intro _
    rfl
  | cons f rest ih =>
    intro h
    rw [List.foldl_cons]
    have hone : sfRootStep pattern [] f = [] := by
      simp [sfRootStep, h f (List.mem_cons_self _ _)]
    rw [hone]
    exact ih fun f2 hf2 => h f2 (List.mem_cons_of_mem _ hf2)

/-- The key-directory fan-out of `search_files` preserves an empty match
list when every directory search returns none. -/
theorem sf_fan_fold_no_match (treeNet : String → TreeFetch) (pattern : String)
    (h : ∀ d, (sf_search_directory treeNet pattern 4 d).1 = []) :
    ∀ (dirs : List String) (errs : List String),
      ((dirs.foldl (sfDirFanStep treeNet pattern) ([], errs)).1 = []) := by
  intro dirs
  induction dirs with
  | nil =>
    intro errs
    rfl
  | cons d rest ih =>
    intro errs
    rw [List.foldl_cons]
    have hone : sfDirFanStep treeNet pattern ([], errs) d =
        ([], errs ++ (sf_search_directory treeNet pattern 4 d).2) := by
      simp [sfDirFanStep, h d]
    rw [hone]
    exact ih _

/-- `search_files` with no pattern hit in any listed name returns the JSON
error payload whose `debug_info` lists the searched directories. -/
theorem search_files_no_match (treeNet : String → TreeFetch) (filename_pattern : String)
    (hq : pyLower (pyStrip filename_pattern) ≠ "")
    (hclean : sfNamesClean (pyLower (pyStrip filename_pattern)) treeNet) :
    (errorField (search_files treeNet filename_pattern)).isSome = true
    ∧ debugDirs (search_files treeNet filename_pattern) =
      some (.arr (sfKeyDirs.map JValue.s)) := by
  have hdirs := sf_search_directory_no_match treeNet (pyLower (pyStrip filename_pattern)) hclean 4
  unfold search_files
  rw [if_neg hq]
  cases hsm : (get_github_structure treeNet).errorMsg with
  | some e =>
    simp only [hsm]
    have hroot : ([] : List NamePath).foldl (sfRootStep (pyLower (pyStrip filename_pattern))) [] = [] := rfl
    rw [hroot]
    have hkey := sf_fan_fold_no_match treeNet _ hdirs sfKeyDirs
      ["Error getting repository structure: " ++ e]
    rcases hkeyres : sfKeyDirs.foldl (sfDirFanStep treeNet (pyLower (pyStrip filename_pattern)))
        ([], ["Error getting repository structure: " ++ e]) with ⟨km, ke⟩
    rw [hkeyres] at hkey
    have hkm : km = [] := hkey
    subst hkm
    have hdirect := sf_fan_fold_no_match treeNet _ hdirs sfDirectPaths ke
    rcases hdirres : sfDirectPaths.foldl (sfDirFanStep treeNet (pyLower (pyStrip filename_pattern)))
        ([], ke) with ⟨dm, de⟩
    rw [hdirres] at hdirect
    have hdm : dm = [] := hdirect
    subst hdm
    cases hde : de.isEmpty with
    | false =>
      have hcond : (!de.isEmpty) = true := by rw [hde]; rfl
      simp only [List.isEmpty_nil, hcond, if_true]
      exact ⟨rfl, rfl⟩
    | true =>
      have hcond : (!de.isEmpty) = false := by rw [hde]; rfl
      simp only [List.isEmpty_nil, hcond, if_true, Bool.false_eq_true, if_false]
      exact ⟨rfl, rfl⟩
  | none =>
    simp only [hsm]
    have hfiles := ghs_files_clean treeNet _ hclean
    have hroot := sf_root_fold_no_match _ (get_github_structure treeNet).files hfiles
    rw [hroot]
    have hkey := sf_fan_fold_no_match treeNet _ hdirs sfKeyDirs []
    rcases hkeyres : sfKeyDirs.foldl (sfDirFanStep treeNet (pyLower (pyStrip filename_pattern)))
        ([], []) with ⟨km, ke⟩
    rw [hkeyres] at hkey
    have hkm : km = [] := hkey
    subst hkm
    have hdirect := sf_fan_fold_no_match treeNet _ hdirs sfDirectPaths ke
    rcases hdirres : sfDirectPaths.foldl (sfDirFanStep treeNet (pyLower (pyStrip filename_pattern)))
        ([], ke) with ⟨dm, de⟩
    rw [hdirres] at hdirect
    have hdm : dm = [] := hdirect
    subst hdm
    cases hde : de.isEmpty with
    | false =>
      have hcond : (!de.isEmpty) = true := by rw [hde]; rfl
      simp only [List.isEmpty_nil, hcond, if_true]
      exact ⟨rfl, rfl⟩
    | true =>
      have hcond : (!de.isEmpty) = false := by rw [hde]; rfl
      simp only [List.isEmpty_nil, hcond, if_true, Bool.false_eq_true, if_false]
      exact ⟨rfl, rfl⟩

/-- C5 (amended).  For a non-empty query no corpus document matches:
`search_github` and `search_files` return structured JSON empty-result
payloads whose `debug_info` lists the directories attempted, but
`search_docs` returns a plain text message that names the query and lists no
attempted page. -/
theorem empty_result_payloads (docNet ghNet : String → Except String String)
    (urljoin : String → String → String) (parseAnchors : String → List String)
    (treeNet : String → TreeFetch) (query : String) (s : ServerState)
    (hq : pyLower (pyStrip query) ≠ "")
    (hdocNet : ∀ u c, docNet u = .ok c → noTermHit (pySplitWs (pyLower (pyStrip query))) c)
    (hdocCache : docCacheClean (pySplitWs (pyLower (pyStrip query))) s)
    (hmain : ∃ content s1, fetch_doc_page docNet DOCS_URL s = (.ok content, s1))
    (hghNet : ∀ p c, ghNet p = .ok c → noTermHit (pySplitWs (pyLower (pyStrip query))) c)
    (hghCache : ghCacheClean (pySplitWs (pyLower (pyStrip query))) s)
    (hnames : sfNamesClean (pyLower (pyStrip query)) treeNet) :
    ((search_docs docNet urljoin parseAnchors query s).1 =
      .text ("No results found for your query: '" ++ pyLower (pyStrip query) ++
        "'. Try a different search term or check the documentation index.")
      ∧ isJsonResult (search_docs docNet urljoin parseAnchors query s).1 = false)
    ∧ (errorField (search_github treeNet ghNet query s).1 =
        some (.s ("No results found in the GitHub repository for query: '" ++
          pyLower (pyStrip query) ++ "'. Try different search terms."))
      ∧ debugDirs (search_github treeNet ghNet query s).1 =
        some (.arr (ghKeyDirs.map JValue.s)))
    ∧ ((errorField (search_files treeNet query)).isSome = true
      ∧ debugDirs (search_files treeNet query) = some (.arr (sfKeyDirs.map JValue.s))) := by
  have hdocs := search_docs_no_match docNet urljoin parseAnchors query s hq hdocNet hdocCache hmain
  refine ⟨⟨hdocs, ?_⟩, ?_, ?_⟩
  · rw [hdocs]
    rfl
  · exact search_github_no_match treeNet ghNet query s hq hghNet hghCache
  · exact search_files_no_match treeNet query hq hnames

/-- A mocked documentation network for C5: every page reads "alpha beta". -/
def c5Net : String → Except String String := fun _ => .ok "alpha beta"

/-- C5 (counterexample).  For the query "zzz", which no corpus document
contains, `search_docs` returns a bare string — not a structured JSON
payload — and that string names only the query, not the pages attempted. -/
theorem search_docs_plaintext_counterexample :
    (search_docs c5Net (fun a b => a ++ b) (fun _ => ["p.html"]) "zzz" ⟨[], [], 0, 0⟩).1 =
      .text "No results found for your query: 'zzz'. Try a different search term or check the documentation index."
    ∧ isJsonResult (search_docs c5Net (fun a b => a ++ b) (fun _ => ["p.html"]) "zzz"
        ⟨[], [], 0, 0⟩).1 = false := by
  refine ⟨rfl, rfl⟩

/-- Witness for C5: the no-match hypotheses hold of the mocked site with
query "zzz", and the three payload conclusions follow. -/
theorem empty_result_payloads_check :
    isJsonResult (search_docs c5Net (fun a b => a ++ b) (fun _ => []) "zzz"
      ⟨[], [], 0, 0⟩).1 = false
    ∧ debugDirs (search_github (fun _ => .ok ⟨[], []⟩) c5Net "zzz" ⟨[], [], 0, 0⟩).1 =
      some (.arr (ghKeyDirs.map JValue.s))
    ∧ (errorField (search_files (fun _ => .ok ⟨[], []⟩) "zzz")).isSome = true := by
  have h := empty_result_payloads c5Net c5Net (fun a b => a ++ b) (fun _ => [])
    (fun _ => .ok ⟨[], []⟩) "zzz" ⟨[], [], 0, 0⟩
    (by decide)
    (by
      intro u c h t ht
      injection h with h2
      subst h2
      have hsplit : pySplitWs (pyLower (pyStrip "zzz")) = ["zzz"] := by decide
      rw [hsplit] at ht
      have ht2 : t = "zzz" := by simpa using ht
      subst ht2
      decide)
    (by
      intro kv hkv
      exact absurd hkv (List.not_mem_nil kv))
    ⟨"alpha beta", ⟨[(DOCS_URL, "alpha beta")], [], 1, 0⟩, rfl⟩
    (by
      intro p c h t ht
      injection h with h2
      subst h2
      have hsplit : pySplitWs (pyLower (pyStrip "zzz")) = ["zzz"] := by decide
      rw [hsplit] at ht
      have ht2 : t = "zzz" := by simpa using ht
      subst ht2
      decide)
    (by
      intro kv hkv
      exact absurd hkv (List.not_mem_nil kv))
    (by
      intro u pg h
      injection h with h2
      subst h2
      constructor
      · intro r hr
        exact absurd hr (List.not_mem_nil r)
      · intro l hl
        exact absurd hl (List.not_mem_nil l))
  exact ⟨h.1.2, h.2.1.2, h.2.2.1⟩
